import Mathlib

/-!
Verification of the entity-simulation and collision-resolution core of a
small 2D arcade game (a single JavaScript file, space_shooter.js).

The numeric values manipulated by the game are JavaScript numbers; the only
irrational constant the core uses is Math.SQRT1_2.  We therefore embed the
game's arithmetic in the ring of numbers of the form a + b * sqrt 2 with
a b rational, represented exactly by the structure Q2 below.  Every game
operation is a computable function on Q2; the bridge toReal interprets a Q2
value as the real number it denotes, and order tests used by the game
(the Boolean functions Q2.blt and Q2.ble) are proved to agree with the real
order.
-/

/-- Number of the form a + b * sqrt 2 with a b rational; exact representation
of every quantity the game computes. -/
structure Q2 where
  a : ℚ
  b : ℚ
deriving DecidableEq, Repr

namespace Q2

/-- Embedding of a rational constant of the source program. -/
def ofRat (q : ℚ) : Q2 := ⟨q, 0⟩

/-- Addition on Q2. -/
def add (x y : Q2) : Q2 := ⟨x.a + y.a, x.b + y.b⟩

/-- Negation on Q2. -/
def neg (x : Q2) : Q2 := ⟨-x.a, -x.b⟩

/-- Subtraction on Q2. -/
def sub (x y : Q2) : Q2 := ⟨x.a - y.a, x.b - y.b⟩

/-- Multiplication on Q2, using (sqrt 2) * (sqrt 2) = 2. -/
def mul (x y : Q2) : Q2 := ⟨x.a * y.a + 2 * x.b * y.b, x.a * y.b + x.b * y.a⟩

instance : Add Q2 := ⟨add⟩
instance : Neg Q2 := ⟨neg⟩
instance : Sub Q2 := ⟨sub⟩
instance : Mul Q2 := ⟨mul⟩

/-- Exact value of the JavaScript constant Math.SQRT1_2, that is
1 / sqrt 2 = (1/2) * sqrt 2. -/
def sqrt12 : Q2 := ⟨0, 1/2⟩

/-- Decidable positivity test: pos x = true iff the real number denoted by x
is strictly positive (proved in pos_iff below). -/
def pos (x : Q2) : Bool :=
  if 0 ≤ x.b then
    if 0 ≤ x.a then decide (0 < x.a) || decide (0 < x.b)
    else decide (x.a ^ 2 < 2 * x.b ^ 2)
  else
    if 0 ≤ x.a then decide (2 * x.b ^ 2 < x.a ^ 2)
    else false

/-- Boolean strict order test on Q2; models a JavaScript comparison x < y. -/
def blt (x y : Q2) : Bool := pos (y - x)

/-- Boolean order test on Q2; models a JavaScript comparison x <= y. -/
def ble (x y : Q2) : Bool := !pos (x - y)

/-- Model of JavaScript Math.max on Q2 values. -/
def maxQ (x y : Q2) : Q2 := if ble x y then y else x

/-- Model of JavaScript Math.min on Q2 values. -/
def minQ (x y : Q2) : Q2 := if ble x y then x else y

/-- Real number denoted by a Q2 value. -/
noncomputable def toReal (x : Q2) : ℝ := (x.a : ℝ) + (x.b : ℝ) * Real.sqrt 2

theorem sqrt2_pos : 0 < Real.sqrt 2 := Real.sqrt_pos.mpr (by norm_num)

theorem sqrt2_sq : Real.sqrt 2 ^ 2 = 2 := Real.sq_sqrt (by norm_num)

@[simp] theorem toReal_ofRat (q : ℚ) : (ofRat q).toReal = (q : ℝ) := by
  simp [ofRat, toReal]

@[simp] theorem toReal_add (x y : Q2) : (x + y).toReal = x.toReal + y.toReal := by
  show (add x y).toReal = _
  simp [add, toReal]
  ring

@[simp] theorem toReal_sub (x y : Q2) : (x - y).toReal = x.toReal - y.toReal := by
  show (sub x y).toReal = _
  simp [sub, toReal]
  ring

@[simp] theorem toReal_neg (x : Q2) : (-x).toReal = -x.toReal := by
  show (neg x).toReal = _
  simp [neg, toReal]
  ring

@[simp] theorem toReal_mul (x y : Q2) : (x * y).toReal = x.toReal * y.toReal := by
  show (mul x y).toReal = _
  simp only [mul, toReal]
  push_cast
  linear_combination (-(x.b : ℝ) * (y.b : ℝ)) * sqrt2_sq

theorem toReal_sqrt12 : sqrt12.toReal = Real.sqrt 2 / 2 := by
  simp [sqrt12, toReal]
  ring

theorem pos_iff (x : Q2) : x.pos = true ↔ 0 < x.toReal := by
  rcases x with ⟨a, b⟩
  have hs0 : 0 < Real.sqrt 2 := sqrt2_pos
  have hs2 : Real.sqrt 2 ^ 2 = 2 := sqrt2_sq
  show (if 0 ≤ b then
          if 0 ≤ a then decide (0 < a) || decide (0 < b)
          else decide (a ^ 2 < 2 * b ^ 2)
        else
          if 0 ≤ a then decide (2 * b ^ 2 < a ^ 2)
          else false) = true ↔ 0 < (a:ℝ) + (b:ℝ) * Real.sqrt 2
  by_cases hb : (0:ℚ) ≤ b
  · by_cases ha : (0:ℚ) ≤ a
    · rw [if_pos hb, if_pos ha]
      simp only [Bool.or_eq_true, decide_eq_true_eq]
      constructor
      · rintro (h | h)
        · have hb' : (0:ℝ) ≤ (b:ℝ) * Real.sqrt 2 := by
            have : (0:ℝ) ≤ (b:ℝ) := by exact_mod_cast hb
            positivity
          have : (0:ℝ) < (a:ℝ) := by exact_mod_cast h
          linarith
        · have ha' : (0:ℝ) ≤ (a:ℝ) := by exact_mod_cast ha
          have : (0:ℝ) < (b:ℝ) := by exact_mod_cast h
          nlinarith
      · intro h
        by_contra hc
        push_neg at hc
        obtain ⟨h1, h2⟩ := hc
        have ha0 : a = 0 := le_antisymm h1 ha
        have hb0 : b = 0 := le_antisymm h2 hb
        subst ha0; subst hb0
        simp at h
    · push_neg at ha
      rw [if_pos hb, if_neg (not_le.mpr ha)]
      simp only [decide_eq_true_eq]
      have haR : (a:ℝ) < 0 := by exact_mod_cast ha
      have hbR : (0:ℝ) ≤ (b:ℝ) := by exact_mod_cast hb
      constructor
      · intro h
        have hR : (a:ℝ) ^ 2 < 2 * (b:ℝ) ^ 2 := by exact_mod_cast h
        have hlt : -(a:ℝ) < (b:ℝ) * Real.sqrt 2 := by
          have hbs : (0:ℝ) ≤ (b:ℝ) * Real.sqrt 2 := by positivity
          have hsq : (-(a:ℝ)) ^ 2 < ((b:ℝ) * Real.sqrt 2) ^ 2 := by
            rw [mul_pow, hs2]
            nlinarith
          exact lt_of_pow_lt_pow_left₀ 2 hbs hsq
        linarith
      · intro h
        have hlt : -(a:ℝ) < (b:ℝ) * Real.sqrt 2 := by linarith
        have hna : (0:ℝ) ≤ -(a:ℝ) := by linarith
        have hsq : (-(a:ℝ)) ^ 2 < ((b:ℝ) * Real.sqrt 2) ^ 2 := by
          exact pow_lt_pow_left₀ hlt hna (by norm_num)
        rw [mul_pow, hs2] at hsq
        have hc : (a:ℝ) ^ 2 < 2 * (b:ℝ) ^ 2 := by nlinarith
        exact_mod_cast hc
  · push_neg at hb
    have hbR : (b:ℝ) < 0 := by exact_mod_cast hb
    by_cases ha : (0:ℚ) ≤ a
    · rw [if_neg (not_le.mpr hb), if_pos ha]
      simp only [decide_eq_true_eq]
      have haR : (0:ℝ) ≤ (a:ℝ) := by exact_mod_cast ha
      constructor
      · intro h
        have hR : 2 * (b:ℝ) ^ 2 < (a:ℝ) ^ 2 := by exact_mod_cast h
        have hlt : -(b:ℝ) * Real.sqrt 2 < (a:ℝ) := by
          have hsq : (-(b:ℝ) * Real.sqrt 2) ^ 2 < (a:ℝ) ^ 2 := by
            rw [mul_pow, hs2]
            nlinarith
          exact lt_of_pow_lt_pow_left₀ 2 haR hsq
        nlinarith
      · intro h
        have hlt : -(b:ℝ) * Real.sqrt 2 < (a:ℝ) := by nlinarith
        have hnb : (0:ℝ) ≤ -(b:ℝ) * Real.sqrt 2 := by
          have : (0:ℝ) ≤ -(b:ℝ) := by linarith
          positivity
        have hsq : (-(b:ℝ) * Real.sqrt 2) ^ 2 < (a:ℝ) ^ 2 := by
          exact pow_lt_pow_left₀ hlt hnb (by norm_num)
        rw [mul_pow, hs2] at hsq
        have hc : 2 * (b:ℝ) ^ 2 < (a:ℝ) ^ 2 := by nlinarith
        exact_mod_cast hc
    · push_neg at ha
      have haR : (a:ℝ) < 0 := by exact_mod_cast ha
      rw [if_neg (not_le.mpr hb), if_neg (not_le.mpr ha)]
      simp only [Bool.false_eq_true, false_iff, not_lt]
      nlinarith [mul_neg_of_neg_of_pos hbR hs0]

theorem blt_iff (x y : Q2) : blt x y = true ↔ x.toReal < y.toReal := by
  unfold blt
  rw [pos_iff, toReal_sub]
  constructor <;> intro h <;> linarith

theorem ble_iff (x y : Q2) : ble x y = true ↔ x.toReal ≤ y.toReal := by
  unfold ble
  rw [Bool.not_eq_true', ← Bool.not_eq_true, pos_iff, toReal_sub]
  constructor <;> intro h <;> [skip; intro hc] <;> [linarith [not_lt.mp h]; linarith]

theorem toReal_maxQ (x y : Q2) : (maxQ x y).toReal = max x.toReal y.toReal := by
  unfold maxQ
  by_cases h : ble x y = true
  · rw [if_pos h, max_eq_right ((ble_iff x y).mp h)]
  · rw [if_neg h]
    have : ¬ x.toReal ≤ y.toReal := fun hc => h ((ble_iff x y).mpr hc)
    rw [max_eq_left (le_of_not_le this)]

theorem toReal_minQ (x y : Q2) : (minQ x y).toReal = min x.toReal y.toReal := by
  unfold minQ
  by_cases h : ble x y = true
  · rw [if_pos h, min_eq_left ((ble_iff x y).mp h)]
  · rw [if_neg h]
    have : ¬ x.toReal ≤ y.toReal := fun hc => h ((ble_iff x y).mpr hc)
    rw [min_eq_right (le_of_not_le this)]

end Q2

/-!
Model of the fixed-timestep driver: the function loop (space_shooter.js
lines 626-650).  loop receives the current time in milliseconds, converts it
to seconds, computes delta_time = curr_time - last_time (initializing
last_time to curr_time on the very first call), and then, while
delta_time > config.update_rate.seconds, runs one fixed update, subtracts one
tick duration from delta_time and assigns last_time = curr_time.  Only the
tick count is modelled here; the world update itself is modelled separately
below.
-/

/-- Fixed tick duration in seconds: config.update_rate.seconds =
1 / config.update_rate.fps with fps = 60 (space_shooter.js lines 477-483). -/
def tickDurQ : ℚ := 1 / 60

/-- Number of iterations of the while loop of the function loop
(space_shooter.js lines 638-647) for a given initial delta_time: while
delta_time > tickDurQ, one fixed update runs and tickDurQ is subtracted. -/
def whileTicks (delta_time : ℚ) : ℕ :=
  if h : tickDurQ < delta_time then whileTicks (delta_time - tickDurQ) + 1 else 0
termination_by (⌈delta_time * 60⌉).toNat
decreasing_by
  have h1 : (delta_time - tickDurQ) * 60 = delta_time * 60 - 1 := by
    unfold tickDurQ; ring
  have h2 : (1:ℤ) < ⌈delta_time * 60⌉ := by
    rw [Int.lt_ceil]
    unfold tickDurQ at h
    push_cast
    linarith
  rw [h1]
  rw [show (delta_time * 60 - 1 : ℚ) = delta_time * 60 - ((1:ℤ):ℚ) by push_cast; ring]
  rw [Int.ceil_sub_int]
  omega

/-- Driver state across animation-frame callbacks: last_time in seconds
(none before the first callback, matching the initial null) and the
cumulative number of executed fixed updates (loop_count). -/
structure LoopSt where
  last_time : Option ℚ
  count : ℕ
deriving DecidableEq, Repr

/-- Model of one invocation of loop (space_shooter.js lines 626-650) at
current time curr_ms milliseconds: convert to seconds, initialize last_time
on the first call, run the while loop.  Each iteration executes one fixed
update and assigns last_time = curr_time, so whenever at least one tick runs
the sub-tick remainder of delta_time is discarded; when zero ticks run
last_time keeps its previous value and the elapsed time carries over. -/
def loopStep (st : LoopSt) (curr_ms : ℚ) : LoopSt :=
  let curr := curr_ms / 1000
  let last := st.last_time.getD curr
  let delta := curr - last
  let n := whileTicks delta
  { last_time := some (if 0 < n then curr else last), count := st.count + n }

/-- Driver run over a whole sequence of animation-frame callback times
(milliseconds), starting from the initial state last_time = null,
loop_count = 0 (space_shooter.js lines 513-516). -/
def runLoop (calls : List ℚ) : LoopSt := calls.foldl loopStep ⟨none, 0⟩

/-- Total elapsed wall time in seconds between the first and the last
callback of a sequence. -/
def totalElapsed (calls : List ℚ) : ℚ :=
  ((calls.getLast?.getD 0) - (calls.head?.getD 0)) / 1000

theorem whileTicks_eq_aux : ∀ (n : ℕ) (d : ℚ), (⌈d * 60⌉).toNat ≤ n →
    whileTicks d = if tickDurQ < d then (⌈d * 60⌉ - 1).toNat else 0 := by
  intro n
  induction n with
  | zero =>
    intro d hd
    have h0 : ⌈d * 60⌉ ≤ 0 := by omega
    have hd0 : d * 60 ≤ ((0:ℤ):ℚ) := Int.ceil_le.mp h0
    have hlt : ¬ tickDurQ < d := by
      unfold tickDurQ
      intro hc
      push_cast at hd0
      linarith
    rw [whileTicks.eq_def, dif_neg hlt, if_neg hlt]
  | succ n ih =>
    intro d hd
    by_cases h : tickDurQ < d
    · rw [whileTicks.eq_def, dif_pos h, if_pos h]
      have key : (d - tickDurQ) * 60 = d * 60 - 1 := by unfold tickDurQ; ring
      have hceil : ⌈(d - tickDurQ) * 60⌉ = ⌈d * 60⌉ - 1 := by
        rw [key, show (d * 60 - 1 : ℚ) = d * 60 - ((1:ℤ):ℚ) by push_cast; ring,
          Int.ceil_sub_int]
      have h2 : (1:ℤ) < ⌈d * 60⌉ := by
        rw [Int.lt_ceil]
        unfold tickDurQ at h
        push_cast
        linarith
      have hrec := ih (d - tickDurQ) (by rw [hceil]; omega)
      rw [hrec]
      by_cases h3 : tickDurQ < d - tickDurQ
      · rw [if_pos h3]
        have h4 : (1:ℤ) < ⌈(d - tickDurQ) * 60⌉ := by
          rw [Int.lt_ceil]
          unfold tickDurQ at h3
          push_cast
          linarith
        rw [hceil] at h4 ⊢
        omega
      · rw [if_neg h3]
        have h5 : d * 60 ≤ ((2:ℤ):ℚ) := by
          unfold tickDurQ at h3
          push_neg at h3
          push_cast
          linarith
        have h6 : ⌈d * 60⌉ ≤ 2 := Int.ceil_le.mpr h5
        omega
    · rw [whileTicks.eq_def, dif_neg h, if_neg h]

/-- Closed form of the while loop of loop: the number of fixed updates run in
one callback whose accumulated delta is d equals ceil(d / tickDur) - 1 when
d exceeds one tick duration, and 0 otherwise. -/
theorem whileTicks_closed (d : ℚ) :
    whileTicks d = if tickDurQ < d then (⌈d / tickDurQ⌉ - 1).toNat else 0 := by
  have hdiv : d / tickDurQ = d * 60 := by
    unfold tickDurQ
    rw [div_eq_mul_inv, show ((1:ℚ)/60)⁻¹ = 60 by norm_num]
  rw [hdiv]
  exact whileTicks_eq_aux (⌈d * 60⌉).toNat d le_rfl

/-!
Game data model.  A Body (space_shooter.js lines 95-160) owns position,
velocity, size, health and an identity; the subclasses Player
(lines 167-243), Projectile (lines 250-313) and Mob (lines 338-407) add
their own fields.  JavaScript objects are embedded as one flat record
carrying every field with the class-default values; each constructor
overrides exactly the fields the source assigns.  Math.random() draws are
modelled by a stream of rationals in [0,1) threaded through the functions
that call randomInt.
-/

/-- Kind tag of a body, set by each constructor (this.type). -/
inductive BType
  | Player
  | Projectile
  | Mob
deriving DecidableEq, Repr

/-- Controller snapshot consumed by the Player each tick:
move_x, move_y in \x7b-1, 0, 1\x7d and the action_1 button. -/
structure Controller where
  move_x : ℚ
  move_y : ℚ
  action_1 : Bool
deriving DecidableEq, Repr

/-- Two-dimensional vector of game quantities (position, velocity, size). -/
structure Vec2 where
  x : Q2
  y : Q2
deriving DecidableEq, Repr

/-- Flat record of all fields a game object can carry. -/
structure Body where
  type : BType
  position : Vec2
  velocity : Vec2
  size : Vec2
  health : ℤ
  speed : ℚ
  controller : Controller
  accumulator : Q2
  lifeTime : Q2
  mobsKilled : ℕ
  mobCount : ℕ
  acceleration : ℤ
  switchTime : Q2
deriving DecidableEq, Repr

/-- Field initializers of class Body (space_shooter.js lines 96-99):
position (0,0), velocity (0,0), size 10 by 10, health 100; the remaining
fields carry neutral defaults and are only read after a constructor or
update assigns them. -/
def Body.base : Body :=
  { type := BType.Player
    position := ⟨Q2.ofRat 0, Q2.ofRat 0⟩
    velocity := ⟨Q2.ofRat 0, Q2.ofRat 0⟩
    size := ⟨Q2.ofRat 10, Q2.ofRat 10⟩
    health := 100
    speed := 0
    controller := ⟨0, 0, false⟩
    accumulator := Q2.ofRat 0
    lifeTime := Q2.ofRat 0
    mobsKilled := 0
    mobCount := 0
    acceleration := 0
    switchTime := Q2.ofRat 0 }

/-- Playfield width: config.canvas_size.width = 300 (line 474). -/
def canvasW : ℚ := 300

/-- Playfield height: config.canvas_size.height = 500 (line 475). -/
def canvasH : ℚ := 500

/-- randomInt (lines 458-460): floor(r * (max - min + 1) + min), where r
models the Math.random() draw in [0,1). -/
def randomInt (lo hi : ℤ) (r : ℚ) : ℤ := ⌊r * ((hi:ℚ) - (lo:ℚ) + 1) + (lo:ℚ)⌋

/-- Pops the next Math.random() draw from the modelled stream (0 when the
stream is exhausted). -/
def drawRand : List ℚ → ℚ × List ℚ
  | [] => (0, [])
  | r :: rs => (r, rs)

/-- Body.prototype.update (lines 134-138): position += delta_time * velocity. -/
def Body.update (dt : Q2) (b : Body) : Body :=
  { b with position := ⟨b.position.x + dt * b.velocity.x,
                        b.position.y + dt * b.velocity.y⟩ }

/-- Body.prototype.isDead (lines 125-127): health less than or equal to 0. -/
def Body.isDead (b : Body) : Bool := decide (b.health ≤ 0)

/-- Body.prototype.half_size getter (lines 115-120): size / 2. -/
def Body.half_size (b : Body) : Vec2 :=
  ⟨b.size.x * Q2.ofRat (1/2), b.size.y * Q2.ofRat (1/2)⟩

/-- new Player() (lines 186-199): type Player, speed 120 (line 175),
position (width/2, height-100), size.width = 11 (height keeps the Body
default 10). -/
def Player.init : Body :=
  { Body.base with
    type := BType.Player
    speed := 120
    position := ⟨Q2.ofRat (canvasW / 2), Q2.ofRat (canvasH - 100)⟩
    size := ⟨Q2.ofRat 11, Q2.ofRat 10⟩ }

/-- new Projectile() (lines 253-264), reading the global player p:
velocity.y = -100, random acceleration in [0,6], position
(p.position.x, p.position.y - p.size.height - 3), size 3 by 12. -/
def Projectile.init (p : Body) (r : ℚ) : Body :=
  { Body.base with
    type := BType.Projectile
    velocity := ⟨Q2.ofRat 0, Q2.ofRat (-100)⟩
    acceleration := randomInt 0 6 r
    position := ⟨p.position.x, p.position.y - p.size.y - Q2.ofRat 3⟩
    size := ⟨Q2.ofRat 3, Q2.ofRat 12⟩ }

/-- new Mob() (lines 339-351): accumulator 0, switchTime 0.1, random x in
[20, width-20], y = -12, speed 100, velocity (0, 100), size.width = 10. -/
def Mob.init (r : ℚ) : Body :=
  { Body.base with
    type := BType.Mob
    accumulator := Q2.ofRat 0
    switchTime := Q2.ofRat (1/10)
    position := ⟨Q2.ofRat ((randomInt 20 (300 - 20) r : ℤ) : ℚ), Q2.ofRat (-12)⟩
    speed := 100
    velocity := ⟨Q2.ofRat 0, Q2.ofRat 100⟩
    size := ⟨Q2.ofRat 10, Q2.ofRat 10⟩ }

/-- Velocity assignment of Player.prototype.update (lines 223-229):
velocity = speed * (move_x, move_y), scaled by Math.SQRT1_2 on each axis
when both axes are non-zero. -/
def Player.vel (b : Body) : Vec2 :=
  let vx := Q2.ofRat (b.speed * b.controller.move_x)
  let vy := Q2.ofRat (b.speed * b.controller.move_y)
  if b.controller.move_x ≠ 0 ∧ b.controller.move_y ≠ 0 then
    ⟨vx * Q2.sqrt12, vy * Q2.sqrt12⟩
  else
    ⟨vx, vy⟩

/-- Player.prototype.update (lines 219-242): advance lifeTime and the fire
accumulator, set velocity from the controller, fire a Projectile when
action_1 is held and the accumulator reached 1 second (resetting the
accumulator), integrate position, then clamp position into
[0, width] x [0, height] via Math.min(Math.max(0, p), bound).  Returns the
updated player, the spawned projectile if any, and the rest of the random
stream. -/
def Player.update (dt : Q2) (b : Body) (rand : List ℚ) :
    Body × Option Body × List ℚ :=
  let b1 := { b with lifeTime := b.lifeTime + dt, accumulator := b.accumulator + dt }
  let b2 := { b1 with velocity := Player.vel b1 }
  let fire := b2.controller.action_1 && Q2.ble (Q2.ofRat 1) b2.accumulator
  let next :=
    if fire then
      let (r, rand') := drawRand rand
      ({ b2 with accumulator := Q2.ofRat 0 }, some (Projectile.init b2 r), rand')
    else (b2, none, rand)
  let b4 := Body.update dt next.1
  let b5 := { b4 with
    position := ⟨Q2.minQ (Q2.maxQ (Q2.ofRat 0) b4.position.x) (Q2.ofRat canvasW),
      Q2.minQ (Q2.maxQ (Q2.ofRat 0) b4.position.y) (Q2.ofRat canvasH)⟩ }
  (b5, next.2.1, next.2.2)

/-- Projectile.prototype.update (lines 306-312): request removal when
position.y has reached -5 or above the top, then velocity.y -= acceleration,
then integrate position.  Returns the updated body and the removal flag. -/
def Projectile.update (dt : Q2) (b : Body) : Body × Bool :=
  let rem := Q2.ble b.position.y (Q2.ofRat (-5))
  let b1 := { b with velocity := ⟨b.velocity.x, b.velocity.y - Q2.ofRat (b.acceleration : ℚ)⟩ }
  (Body.update dt b1, rem)

/-- Mob.prototype.switch (lines 386-406): draw x = randomInt(1,3) and set
velocity to (speed/sqrt2, speed/sqrt2), (-speed/sqrt2, speed/sqrt2) or
(0, speed); then switchTime = randomInt(0,2) and accumulator = 0. -/
def Mob.switch (b : Body) (rand : List ℚ) : Body × List ℚ :=
  let (r1, rand1) := drawRand rand
  let x := randomInt 1 3 r1
  let b1 :=
    if x = 1 then
      { b with velocity := ⟨Q2.ofRat b.speed * Q2.sqrt12, Q2.ofRat b.speed * Q2.sqrt12⟩ }
    else if x = 2 then
      { b with velocity := ⟨-(Q2.ofRat b.speed) * Q2.sqrt12, Q2.ofRat b.speed * Q2.sqrt12⟩ }
    else if x = 3 then
      { b with velocity := ⟨Q2.ofRat 0, Q2.ofRat b.speed⟩ }
    else b
  let (r2, rand2) := drawRand rand1
  ({ b1 with
      switchTime := Q2.ofRat ((randomInt 0 2 r2 : ℤ) : ℚ)
      accumulator := Q2.ofRat 0 }, rand2)

/-- The boundary bounce of Mob.prototype.update (lines 374-379): at
x >= width - 5 force velocity.x = -speed, else at x <= 5 force
velocity.x = speed. -/
def Mob.bounce (b : Body) : Body :=
  if Q2.ble (Q2.ofRat (canvasW - 5)) b.position.x then
    { b with velocity := ⟨Q2.ofRat (-b.speed), b.velocity.y⟩ }
  else if Q2.ble b.position.x (Q2.ofRat 5) then
    { b with velocity := ⟨Q2.ofRat b.speed, b.velocity.y⟩ }
  else b

/-- Mob.prototype.update (lines 369-384): advance the switch accumulator,
request removal when position.y has passed height + 5, bounce off the left
and right boundaries by overwriting velocity.x, integrate position, and run
switch() when the accumulator reached switchTime.  Returns the updated body,
the removal flag and the rest of the random stream. -/
def Mob.update (dt : Q2) (b : Body) (rand : List ℚ) : Body × Bool × List ℚ :=
  let b0 := { b with accumulator := b.accumulator + dt }
  let rem := Q2.ble (Q2.ofRat (canvasH + 5)) b0.position.y
  let b2 := Body.update dt (Mob.bounce b0)
  if Q2.ble b2.switchTime b2.accumulator then
    let s := Mob.switch b2 rand
    (s.1, rem, s.2)
  else (b2, rem, rand)

/-- Axis-aligned bounding-box overlap test of CollissionChecker
(lines 433-436). -/
def aabb (r1 r2 : Body) : Bool :=
  Q2.blt r1.position.x (r2.position.x + r2.size.x) &&
  Q2.blt r2.position.x (r1.position.x + r1.size.x) &&
  Q2.blt r1.position.y (r2.position.y + r2.size.y) &&
  Q2.blt r2.position.y (r1.position.y + r1.size.y)

/-- Global game state: the entity registry (id-indexed, ascending ids,
matching iteration order of the sparse entities array), the pending-removal
queue, the identity counter running_id, the id of the current player, the
spawner accumulator and the modelled Math.random() stream. -/
structure World where
  entities : List (ℕ × Body)
  queued : List ℕ
  running_id : ℕ
  playerId : ℕ
  spawnAcc : Q2
  rand : List ℚ
deriving DecidableEq, Repr

/-- Reads entities[id]. -/
def lookupEnt : List (ℕ × Body) → ℕ → Option Body
  | [], _ => none
  | e :: es, id => if e.1 = id then some e.2 else lookupEnt es id

/-- Overwrites the body stored under an id (in-place object mutation). -/
def modifyEnt : List (ℕ × Body) → ℕ → (Body → Body) → List (ℕ × Body)
  | [], _, _ => []
  | e :: es, id, f => (if e.1 = id then (e.1, f e.2) else e) :: modifyEnt es id f

/-- Ids present in the registry, in iteration order. -/
def keysOf (es : List (ℕ × Body)) : List ℕ := es.map Prod.fst

/-- The purge step of update (lines 556-559): delete entities[id] for every
queued id. -/
def purgeEnts (es : List (ℕ × Body)) (q : List ℕ) : List (ℕ × Body) :=
  q.foldl (fun acc id => acc.filter (fun e => e.1 != id)) es

/-- Effect of one ordered pair (i, j) of the collision scan
(lines 427-451): on AABB overlap, same types do nothing; (Player, Mob)
costs the player 20 health and queues the mob; (Projectile, Mob) queues
both and increments the global player's kill count; every other ordered
kind combination has no rule and does nothing. -/
def pairEffect (w : World) (ij : ℕ × ℕ) : World :=
  match lookupEnt w.entities ij.1, lookupEnt w.entities ij.2 with
  | some r1, some r2 =>
    if aabb r1 r2 then
      if r1.type = r2.type then w
      else if r1.type = BType.Player ∧ r2.type = BType.Mob then
        { w with
          entities := modifyEnt w.entities ij.1
            (fun b => { b with health := b.health - 20 })
          queued := w.queued ++ [ij.2] }
      else if r1.type = BType.Projectile ∧ r2.type = BType.Mob then
        { w with
          queued := w.queued ++ [ij.2, ij.1]
          entities := modifyEnt w.entities w.playerId
            (fun b => { b with mobsKilled := b.mobsKilled + 1 }) }
      else w
    else w
  | _, _ => w

/-- CollissionChecker.prototype.update (lines 422-455): the O(n^2) scan over
every ordered pair of live indices (holes skipped), applying pairEffect in
loop order. -/
def CollissionChecker.update (w : World) : World :=
  let ids := keysOf w.entities
  (ids.flatMap (fun i => ids.map (fun j => (i, j)))).foldl pairEffect w

/-- Enemy_Spawner.prototype.update (lines 320-331) at world level: add dt to
the accumulator; at 5 seconds or more construct a new Mob (fresh id from
running_id), increment the player's mobCount and reset the accumulator. -/
def Enemy_Spawner.update (dt : Q2) (w : World) : World :=
  let acc := w.spawnAcc + dt
  if Q2.ble (Q2.ofRat 5) acc then
    let (r, rand') := drawRand w.rand
    { w with
      entities := modifyEnt (w.entities ++ [(w.running_id, Mob.init r)])
        w.playerId (fun b => { b with mobCount := b.mobCount + 1 })
      running_id := w.running_id + 1
      spawnAcc := Q2.ofRat 0
      rand := rand' }
  else { w with spawnAcc := acc }

/-- start() (lines 652-659): reset the registry and the removal queue,
construct a fresh Player (which takes the next running_id), fresh spawner
and collision checker.  The identity counter running_id is a module-level
variable (line 519) and is NOT reset. -/
def start (w : World) : World :=
  { entities := [(w.running_id, Player.init)]
    queued := []
    running_id := w.running_id + 1
    playerId := w.running_id
    spawnAcc := Q2.ofRat 0
    rand := w.rand }

/-- Per-entity step of the update pass (lines 546-548): dispatch on the
body's kind, write the updated body back, append a spawned projectile under
a fresh id, and append the entity's own id to the removal queue when its
update requested removal. -/
def stepEntity (dt : Q2) (w : World) (id : ℕ) : World :=
  match lookupEnt w.entities id with
  | none => w
  | some b =>
    match b.type with
    | BType.Player =>
      let res := Player.update dt b w.rand
      let es := modifyEnt w.entities id (fun _ => res.1)
      match res.2.1 with
      | some p =>
        { w with
          entities := es ++ [(w.running_id, p)]
          running_id := w.running_id + 1
          rand := res.2.2 }
      | none => { w with entities := es, rand := res.2.2 }
    | BType.Projectile =>
      let res := Projectile.update dt b
      { w with
        entities := modifyEnt w.entities id (fun _ => res.1)
        queued := if res.2 then w.queued ++ [id] else w.queued }
    | BType.Mob =>
      let res := Mob.update dt b w.rand
      { w with
        entities := modifyEnt w.entities id (fun _ => res.1)
        queued := if res.2.1 then w.queued ++ [id] else w.queued
        rand := res.2.2 }

/-- The input poll at the start of update (line 543): the externally
produced controller snapshot is written into the player object. -/
def phasePoll (ctrl : Controller) (w : World) : World :=
  { w with
    entities := modifyEnt w.entities w.playerId
      (fun b => { b with controller := ctrl }) }

/-- The per-entity update pass of update (lines 546-548), iterating over the
snapshot of ids present when the pass starts. -/
def phaseEntities (dt : Q2) (w : World) : World :=
  (keysOf w.entities).foldl (stepEntity dt) w

/-- The purge phase of update (lines 556-559): erase every queued id from
the registry and empty the queue. -/
def phasePurge (w : World) : World :=
  { w with entities := purgeEnts w.entities w.queued, queued := [] }

/-- The restart condition of update (line 567):
player.isDead() && player.controller.action_1. -/
def restartQ (w : World) : Bool :=
  match lookupEnt w.entities w.playerId with
  | some p => p.isDead && p.controller.action_1
  | none => false

/-- update(delta_time) (lines 541-570): poll input into the player, update
every live entity, run the collision scan, purge queued removals, run the
spawner, and restart via start() when the player is dead and action_1 is
held. -/
def update (ctrl : Controller) (dt : Q2) (w : World) : World :=
  let w1 := phasePoll ctrl w
  let w2 := phaseEntities dt w1
  let w3 := CollissionChecker.update w2
  let w4 := phasePurge w3
  let w5 := Enemy_Spawner.update dt w4
  if restartQ w5 then start w5 else w5

/-- Iterated projectile updates (the body's successive per-tick updates). -/
def Projectile.iter (dt : Q2) : ℕ → Body → Body
  | 0, b => b
  | n + 1, b => Projectile.iter dt n (Projectile.update dt b).1

/-- Iterated mob updates with the random stream threaded through. -/
def Mob.iter (dt : Q2) : ℕ → Body × List ℚ → Body × List ℚ
  | 0, s => s
  | n + 1, s =>
    let res := Mob.update dt s.1 s.2
    Mob.iter dt n (res.1, res.2.2)

/-!
General algebraic helper lemmas on Q2 and on randomInt, shared by the claim
theorems below.
-/

theorem Q2.ofRat_add (p q : ℚ) : Q2.ofRat (p + q) = Q2.ofRat p + Q2.ofRat q := by
  show Q2.ofRat (p + q) = Q2.add (Q2.ofRat p) (Q2.ofRat q)
  simp [Q2.ofRat, Q2.add]

theorem Q2.sub_sub' (x y z : Q2) : x - y - z = x - (y + z) := by
  show Q2.sub (Q2.sub x y) z = Q2.sub x (Q2.add y z)
  simp only [Q2.sub, Q2.add, Q2.mk.injEq]
  constructor <;> ring

theorem Q2.sub_ofRat_zero (x : Q2) : x - Q2.ofRat 0 = x := by
  show Q2.sub x (Q2.ofRat 0) = x
  simp [Q2.sub, Q2.ofRat]

/-- randomInt(lo, hi) lands in [lo, hi] whenever the Math.random() draw is in
[0, 1) and lo is at most hi. -/
theorem randomInt_mem (lo hi : ℤ) (r : ℚ) (h0 : 0 ≤ r) (h1 : r < 1)
    (hle : lo ≤ hi) : lo ≤ randomInt lo hi r ∧ randomInt lo hi r ≤ hi := by
  unfold randomInt
  have hw : (1:ℚ) ≤ (hi:ℚ) - (lo:ℚ) + 1 := by
    have : (lo:ℚ) ≤ (hi:ℚ) := by exact_mod_cast hle
    linarith
  constructor
  · rw [Int.le_floor]
    nlinarith
  · have hlt : ⌊r * ((hi:ℚ) - (lo:ℚ) + 1) + (lo:ℚ)⌋ < hi + 1 := by
      rw [Int.floor_lt]
      push_cast
      nlinarith
    omega

/-!
Claim C2: the fixed-timestep tick-count claim.
-/

/-- Claim C2 counterexample: for the callback time sequence 0, 25, 50, 75,
100 milliseconds (each gap of 25 ms is one and a half tick durations), the
loop executes 4 ticks while floor(total_elapsed / tick_duration) = 6, so the
tick count is NOT within one tick of floor(total_elapsed / tick_duration):
the sub-tick remainder is discarded (last_time is reset to the callback
time inside the while loop) on every callback that runs at least one tick,
rather than carried over. -/
theorem claim_C2_counterexample :
    (runLoop [0, 25, 50, 75, 100]).count = 4 ∧
    ⌊totalElapsed [0, 25, 50, 75, 100] / tickDurQ⌋ = 6 ∧
    ¬ ((⌊totalElapsed [0, 25, 50, 75, 100] / tickDurQ⌋ -
        ((runLoop [0, 25, 50, 75, 100]).count : ℤ)).natAbs ≤ 1) := by
  have e0 : whileTicks (0 : ℚ) = 0 := by
    rw [whileTicks.eq_def, dif_neg (by norm_num [tickDurQ])]
  have e1 : whileTicks (1/40 : ℚ) = 1 := by
    rw [whileTicks.eq_def, dif_pos (by norm_num [tickDurQ])]
    rw [show ((1:ℚ)/40 - tickDurQ) = 1/120 by norm_num [tickDurQ]]
    rw [whileTicks.eq_def, dif_neg (by norm_num [tickDurQ])]
  have h1 : (runLoop [0, 25, 50, 75, 100]).count = 4 := by
    norm_num [runLoop, List.foldl, loopStep, e0, e1, Option.getD]
  have h2 : ⌊totalElapsed [0, 25, 50, 75, 100] / tickDurQ⌋ = 6 := by
    rw [show totalElapsed [0, 25, 50, 75, 100] / tickDurQ = ((6:ℤ):ℚ) by
      norm_num [totalElapsed, tickDurQ]]
    exact Int.floor_intCast 6
  refine ⟨h1, h2, ?_⟩
  rw [h1, h2]
  decide

/-- Claim C2 (amended): per animation-frame callback at time t milliseconds,
the loop runs whileTicks(delta) fixed updates where delta is the time in
seconds since last_time, and whileTicks(delta) equals
ceil(delta / tick_duration) - 1 when delta exceeds one tick duration and 0
otherwise; when at least one tick runs, last_time is set to the callback
time, discarding the sub-tick remainder of delta, so leftover time carries
over only across callbacks that ran zero ticks, and the total tick count can
fall short of floor(total_elapsed / tick_duration) by more than one tick. -/
theorem claim_C2 :
    (∀ (st : LoopSt) (t : ℚ),
      (loopStep st t).count =
        st.count + whileTicks (t / 1000 - st.last_time.getD (t / 1000)) ∧
      (loopStep st t).last_time =
        some (if 0 < whileTicks (t / 1000 - st.last_time.getD (t / 1000))
              then t / 1000 else st.last_time.getD (t / 1000))) ∧
    (∀ d : ℚ, whileTicks d = if tickDurQ < d then (⌈d / tickDurQ⌉ - 1).toNat else 0) :=
  ⟨fun _ _ => ⟨rfl, rfl⟩, whileTicks_closed⟩

/-!
Component-level rewriting lemmas used to evaluate game computations on
concrete inputs, and the projectile velocity recurrence.
-/

namespace Q2

@[simp] theorem add_a (x y : Q2) : (x + y).a = x.a + y.a := rfl

@[simp] theorem add_b (x y : Q2) : (x + y).b = x.b + y.b := rfl

@[simp] theorem sub_a (x y : Q2) : (x - y).a = x.a - y.a := rfl

@[simp] theorem sub_b (x y : Q2) : (x - y).b = x.b - y.b := rfl

@[simp] theorem neg_a (x : Q2) : (-x).a = -x.a := rfl

@[simp] theorem neg_b (x : Q2) : (-x).b = -x.b := rfl

@[simp] theorem mul_a (x y : Q2) : (x * y).a = x.a * y.a + 2 * x.b * y.b := rfl

@[simp] theorem mul_b (x y : Q2) : (x * y).b = x.a * y.b + x.b * y.a := rfl

@[simp] theorem ofRat_a (q : ℚ) : (ofRat q).a = q := rfl

@[simp] theorem ofRat_b (q : ℚ) : (ofRat q).b = 0 := rfl

end Q2

@[simp] theorem btype_pr : (BType.Player = BType.Projectile) = False := by simp

@[simp] theorem btype_pm : (BType.Player = BType.Mob) = False := by simp

@[simp] theorem btype_rp : (BType.Projectile = BType.Player) = False := by simp

@[simp] theorem btype_rm : (BType.Projectile = BType.Mob) = False := by simp

@[simp] theorem btype_mp : (BType.Mob = BType.Player) = False := by simp

@[simp] theorem btype_mr : (BType.Mob = BType.Projectile) = False := by simp

theorem Projectile.update_acceleration (dt : Q2) (b : Body) :
    (Projectile.update dt b).1.acceleration = b.acceleration := rfl

theorem Projectile.update_vy (dt : Q2) (b : Body) :
    (Projectile.update dt b).1.velocity.y =
      b.velocity.y - Q2.ofRat (b.acceleration : ℚ) := rfl

/-- The y-velocity of a projectile after n updates: the stored acceleration
is subtracted once per update. -/
theorem Projectile.iter_vy (dt : Q2) (n : ℕ) (b : Body) :
    (Projectile.iter dt n b).velocity.y =
      b.velocity.y - Q2.ofRat ((n : ℚ) * (b.acceleration : ℚ)) := by
  induction n generalizing b with
  | zero =>
    show b.velocity.y = _
    rw [show ((0:ℕ):ℚ) * (b.acceleration : ℚ) = 0 by push_cast; ring,
      Q2.sub_ofRat_zero]
  | succ n ih =>
    show (Projectile.iter dt n (Projectile.update dt b).1).velocity.y = _
    rw [ih, Projectile.update_vy, Projectile.update_acceleration, Q2.sub_sub',
      ← Q2.ofRat_add]
    congr 1
    push_cast
    ring_nf

/-!
Claim C4: the projectile "deceleration" claim.
-/

/-- Claim C4 counterexample: a projectile created with Math.random() draw
6/7 stores acceleration 6; its y-velocity starts at -100 and after one
update is -106, so the vertical speed magnitude GROWS from 100 to 106
instead of decreasing: velocity.y -= acceleration drives the body faster
upward, it does not act as drag opposing the shot. -/
theorem claim_C4_counterexample :
    ((Projectile.init Player.init (6/7)).velocity.y).toReal = -100 ∧
    ((Projectile.iter (Q2.ofRat (1/60)) 1
        (Projectile.init Player.init (6/7))).velocity.y).toReal = -106 ∧
    ¬ (|((Projectile.iter (Q2.ofRat (1/60)) 1
          (Projectile.init Player.init (6/7))).velocity.y).toReal| <
       |((Projectile.init Player.init (6/7)).velocity.y).toReal|) := by
  have hacc : (Projectile.init Player.init (6/7)).acceleration = 6 := by
    show randomInt 0 6 (6/7) = 6
    unfold randomInt
    rw [show ((6:ℚ)/7 * (((6:ℤ):ℚ) - ((0:ℤ):ℚ) + 1) + ((0:ℤ):ℚ)) = ((6:ℤ):ℚ) by
      push_cast; ring]
    exact Int.floor_intCast 6
  have h0 : ((Projectile.init Player.init (6/7)).velocity.y).toReal = -100 := by
    show (Q2.ofRat (-100)).toReal = -100
    simp
  have h1 := Projectile.iter_vy (Q2.ofRat (1/60)) 1 (Projectile.init Player.init (6/7))
  rw [hacc] at h1
  have h2 : ((Projectile.iter (Q2.ofRat (1/60)) 1
      (Projectile.init Player.init (6/7))).velocity.y).toReal = -106 := by
    rw [h1]
    show (Q2.ofRat (-100) - Q2.ofRat ((1:ℕ) * ((6:ℤ):ℚ))).toReal = -106
    simp
    norm_num
  refine ⟨h0, h2, ?_⟩
  rw [h0, h2]
  norm_num

/-- Claim C4 (amended): the random value stored at creation lies in [0, 6],
and it is subtracted from the y-velocity once per update, so after n updates
the y-velocity is -(100 + n * d): the vertical speed magnitude is
100 + n * d, which increases strictly each tick whenever d is at least 1
(the value acts as an upward acceleration, not as drag). -/
theorem claim_C4 :
    ∀ (p : Body) (r : ℚ) (dt : Q2) (n : ℕ), 0 ≤ r → r < 1 →
      (0 ≤ (Projectile.init p r).acceleration ∧
        (Projectile.init p r).acceleration ≤ 6) ∧
      ((Projectile.iter dt n (Projectile.init p r)).velocity.y).toReal
        = -(100 + (n : ℝ) * ((Projectile.init p r).acceleration : ℝ)) ∧
      (1 ≤ (Projectile.init p r).acceleration →
        |((Projectile.iter dt n (Projectile.init p r)).velocity.y).toReal| <
          |((Projectile.iter dt (n + 1) (Projectile.init p r)).velocity.y).toReal|) := by
  intro p r dt n h0 h1
  have hmem : 0 ≤ (Projectile.init p r).acceleration ∧
      (Projectile.init p r).acceleration ≤ 6 :=
    randomInt_mem 0 6 r h0 h1 (by norm_num)
  have hval : ∀ m : ℕ,
      ((Projectile.iter dt m (Projectile.init p r)).velocity.y).toReal
        = -(100 + (m : ℝ) * ((Projectile.init p r).acceleration : ℝ)) := by
    intro m
    rw [Projectile.iter_vy]
    have hv0 : (Projectile.init p r).velocity.y = Q2.ofRat (-100) := rfl
    rw [hv0, Q2.toReal_sub]
    simp
    ring
  refine ⟨hmem, hval n, ?_⟩
  intro hd
  rw [hval n, hval (n + 1)]
  have hdR : (1:ℝ) ≤ ((Projectile.init p r).acceleration : ℝ) := by exact_mod_cast hd
  have hn : (0:ℝ) ≤ (n:ℝ) := Nat.cast_nonneg n
  rw [abs_neg, abs_neg, abs_of_nonneg (by nlinarith), abs_of_nonneg (by nlinarith)]
  push_cast
  nlinarith

/-- Claim C4 witness: the amended theorem applied to the fresh projectile of
the default player with Math.random() draw 6/7, after one tick. -/
theorem claim_C4_witness :
    ((Projectile.iter (Q2.ofRat (1/60)) 1
        (Projectile.init Player.init (6/7))).velocity.y).toReal
      = -(100 + (1 : ℕ) * ((Projectile.init Player.init (6/7)).acceleration : ℝ)) :=
  (claim_C4 Player.init (6/7) (Q2.ofRat (1/60)) 1 (by norm_num) (by norm_num)).2.1

/-!
Claim C6: the projectile spawn position.
-/

theorem Q2.eq_iff (x y : Q2) : x = y ↔ x.a = y.a ∧ x.b = y.b := by
  rcases x with ⟨xa, xb⟩
  rcases y with ⟨ya, yb⟩
  simp

/-- Claim C6 counterexample: the constructor subtracts the player's FULL
height plus 3, not the half-height plus a 3-unit margin.  For the freshly
constructed player (y = 400, height 10, half-height 5) the projectile spawns
at y = 400 - 10 - 3 = 387, while the claimed offset half-height + 3 would
give y = 400 - 5 - 3 = 392. -/
theorem claim_C6_counterexample :
    (Projectile.init Player.init 0).position.y = Q2.ofRat 387 ∧
    Player.init.position.y - Player.init.half_size.y - Q2.ofRat 3 = Q2.ofRat 392 ∧
    (Projectile.init Player.init 0).position.y ≠
      Player.init.position.y - Player.init.half_size.y - Q2.ofRat 3 := by
  have e1 : (Projectile.init Player.init 0).position.y = Q2.ofRat 387 := by
    show Q2.ofRat (canvasH - 100) - Q2.ofRat 10 - Q2.ofRat 3 = Q2.ofRat 387
    rw [Q2.eq_iff]
    norm_num [canvasH]
  have e2 : Player.init.position.y - Player.init.half_size.y - Q2.ofRat 3
      = Q2.ofRat 392 := by
    show Q2.ofRat (canvasH - 100) - Q2.ofRat 10 * Q2.ofRat (1/2) - Q2.ofRat 3
      = Q2.ofRat 392
    rw [Q2.eq_iff]
    norm_num [canvasH]
  refine ⟨e1, e2, ?_⟩
  rw [e1, e2, Ne, Q2.eq_iff]
  norm_num

/-- Claim C6 (amended): whenever the fire condition holds (action_1 held and
the fire accumulator has reached 1 second), the player's update spawns a
projectile at the player's current x position, with y equal to the player's
current y offset upward by the player's FULL height (twice the half-height)
plus a 3-unit margin. -/
theorem claim_C6 :
    ∀ (b : Body) (dt : Q2) (rand : List ℚ),
      b.controller.action_1 = true →
      Q2.ble (Q2.ofRat 1) (b.accumulator + dt) = true →
      ∃ pr rand2, (Player.update dt b rand).2 = (some pr, rand2) ∧
        pr.position.x = b.position.x ∧
        pr.position.y = b.position.y - b.size.y - Q2.ofRat 3 ∧
        pr.position.y = b.position.y - (b.half_size.y + b.half_size.y) - Q2.ofRat 3 := by
  intro b dt rand h1 h2
  unfold Player.update
  simp only [h1, h2, Bool.true_and, if_true]
  refine ⟨_, _, rfl, rfl, rfl, ?_⟩
  show b.position.y - b.size.y - Q2.ofRat 3 = _
  have hs : b.half_size.y + b.half_size.y = b.size.y := by
    show b.size.y * Q2.ofRat (1/2) + b.size.y * Q2.ofRat (1/2) = b.size.y
    rcases b.size.y with ⟨sa, sb⟩
    show Q2.add (Q2.mul _ _) (Q2.mul _ _) = _
    simp only [Q2.add, Q2.mul, Q2.ofRat, Q2.mk.injEq]
    constructor <;> ring
  rw [hs]

/-- A player body holding action_1 with a full fire accumulator, used as the
witness input of claim C6. -/
def firingPlayer : Body :=
  { Player.init with controller := ⟨0, 0, true⟩, accumulator := Q2.ofRat 1 }

/-- Claim C6 witness: the amended theorem applied to a player holding
action_1 with a full fire accumulator. -/
theorem claim_C6_witness :
    ∃ pr rand2,
      (Player.update (Q2.ofRat (1/60)) firingPlayer []).2 = (some pr, rand2) ∧
      pr.position.x = firingPlayer.position.x ∧
      pr.position.y = firingPlayer.position.y - firingPlayer.size.y - Q2.ofRat 3 ∧
      pr.position.y = firingPlayer.position.y -
        (firingPlayer.half_size.y + firingPlayer.half_size.y) - Q2.ofRat 3 :=
  claim_C6 firingPlayer (Q2.ofRat (1/60)) [] rfl (by norm_num [Q2.ble, Q2.pos, firingPlayer])

/-!
Claims C7 and C8: the player's diagonal speed normalization and the
position clamp.
-/

theorem Player.update_velocity (dt : Q2) (b : Body) (rand : List ℚ) :
    (Player.update dt b rand).1.velocity = Player.vel b := by
  unfold Player.update
  dsimp only
  split <;> rfl

theorem Player.update_position_x (dt : Q2) (b : Body) (rand : List ℚ) :
    (Player.update dt b rand).1.position.x =
      Q2.minQ (Q2.maxQ (Q2.ofRat 0) (b.position.x + dt * (Player.vel b).x))
        (Q2.ofRat canvasW) := by
  unfold Player.update
  dsimp only
  split <;> rfl

theorem Player.update_position_y (dt : Q2) (b : Body) (rand : List ℚ) :
    (Player.update dt b rand).1.position.y =
      Q2.minQ (Q2.maxQ (Q2.ofRat 0) (b.position.y + dt * (Player.vel b).y))
        (Q2.ofRat canvasH) := by
  unfold Player.update
  dsimp only
  split <;> rfl

theorem sqrt_14400 : Real.sqrt 14400 = 120 := by
  rw [show (14400:ℝ) = 120^2 by norm_num, Real.sqrt_sq (by norm_num)]

/-- Claim C7: when both controller axes are non-zero the player's velocity
components are each scaled by Math.SQRT1_2, and the resulting velocity
magnitude equals the speed constant 120 (not 120 * sqrt 2); with exactly one
non-zero axis the magnitude is also 120. -/
theorem claim_C7 :
    ∀ (b : Body) (dt : Q2) (rand : List ℚ),
      b.speed = 120 →
      (b.controller.move_x = -1 ∨ b.controller.move_x = 0 ∨ b.controller.move_x = 1) →
      (b.controller.move_y = -1 ∨ b.controller.move_y = 0 ∨ b.controller.move_y = 1) →
      ¬ (b.controller.move_x = 0 ∧ b.controller.move_y = 0) →
      (b.controller.move_x ≠ 0 → b.controller.move_y ≠ 0 →
        (Player.update dt b rand).1.velocity =
          ⟨Q2.ofRat (120 * b.controller.move_x) * Q2.sqrt12,
           Q2.ofRat (120 * b.controller.move_y) * Q2.sqrt12⟩) ∧
      Real.sqrt ((((Player.update dt b rand).1.velocity.x).toReal) ^ 2 +
                 (((Player.update dt b rand).1.velocity.y).toReal) ^ 2) = 120 := by
  intro b dt rand hsp hx hy hne
  have h14 : ∀ x : ℝ, x = 14400 → Real.sqrt x = 120 := fun x hx => hx ▸ sqrt_14400
  constructor
  · intro hx0 hy0
    rw [Player.update_velocity]
    unfold Player.vel
    rw [hsp, if_pos ⟨hx0, hy0⟩]
  · rw [Player.update_velocity]
    unfold Player.vel
    rcases hx with hx | hx | hx <;> rcases hy with hy | hy | hy
    · rw [hx, hy, hsp, if_pos (by norm_num)]
      simp only [Q2.toReal_mul, Q2.toReal_ofRat, Q2.toReal_sqrt12, mul_pow,
        div_pow, Q2.sqrt2_sq]
      push_cast
      apply h14
      norm_num
    · rw [hx, hy, hsp, if_neg (by norm_num)]
      simp only [Q2.toReal_ofRat]
      push_cast
      apply h14
      norm_num
    · rw [hx, hy, hsp, if_pos (by norm_num)]
      simp only [Q2.toReal_mul, Q2.toReal_ofRat, Q2.toReal_sqrt12, mul_pow,
        div_pow, Q2.sqrt2_sq]
      push_cast
      apply h14
      norm_num
    · rw [hx, hy, hsp, if_neg (by norm_num)]
      simp only [Q2.toReal_ofRat]
      push_cast
      apply h14
      norm_num
    · exact absurd ⟨hx, hy⟩ hne
    · rw [hx, hy, hsp, if_neg (by norm_num)]
      simp only [Q2.toReal_ofRat]
      push_cast
      apply h14
      norm_num
    · rw [hx, hy, hsp, if_pos (by norm_num)]
      simp only [Q2.toReal_mul, Q2.toReal_ofRat, Q2.toReal_sqrt12, mul_pow,
        div_pow, Q2.sqrt2_sq]
      push_cast
      apply h14
      norm_num
    · rw [hx, hy, hsp, if_neg (by norm_num)]
      simp only [Q2.toReal_ofRat]
      push_cast
      apply h14
      norm_num
    · rw [hx, hy, hsp, if_pos (by norm_num)]
      simp only [Q2.toReal_mul, Q2.toReal_ofRat, Q2.toReal_sqrt12, mul_pow,
        div_pow, Q2.sqrt2_sq]
      push_cast
      apply h14
      norm_num

/-- A player whose controller pushes diagonally (move_x = move_y = 1), used
as the witness input of claim C7. -/
def diagPlayer : Body := { Player.init with controller := ⟨1, 1, false⟩ }

/-- Claim C7 witness: the diagonal player's velocity magnitude after an
update is exactly 120. -/
theorem claim_C7_witness :
    Real.sqrt ((((Player.update (Q2.ofRat (1/60)) diagPlayer []).1.velocity.x).toReal) ^ 2 +
               (((Player.update (Q2.ofRat (1/60)) diagPlayer []).1.velocity.y).toReal) ^ 2)
      = 120 :=
  (claim_C7 diagPlayer (Q2.ofRat (1/60)) [] rfl (Or.inr (Or.inr rfl))
    (Or.inr (Or.inr rfl)) (by norm_num [diagPlayer, Player.init])).2

/-- Claim C8: after every Player update the position lies in
[0, width] x [0, height]; a coordinate whose integration lands outside is
set exactly to the nearest boundary, and one landing inside is left
unchanged (clamped, not wrapped or bounced). -/
theorem claim_C8 :
    ∀ (b : Body) (dt : Q2) (rand : List ℚ),
      ((Player.update dt b rand).1.position.x).toReal =
        min (max 0 ((b.position.x + dt * (Player.vel b).x).toReal)) 300 ∧
      ((Player.update dt b rand).1.position.y).toReal =
        min (max 0 ((b.position.y + dt * (Player.vel b).y).toReal)) 500 ∧
      (0 ≤ ((Player.update dt b rand).1.position.x).toReal ∧
        ((Player.update dt b rand).1.position.x).toReal ≤ 300) ∧
      (0 ≤ ((Player.update dt b rand).1.position.y).toReal ∧
        ((Player.update dt b rand).1.position.y).toReal ≤ 500) ∧
      (((b.position.x + dt * (Player.vel b).x).toReal < 0 →
        ((Player.update dt b rand).1.position.x).toReal = 0) ∧
       (300 < (b.position.x + dt * (Player.vel b).x).toReal →
        ((Player.update dt b rand).1.position.x).toReal = 300) ∧
       (0 ≤ (b.position.x + dt * (Player.vel b).x).toReal →
        (b.position.x + dt * (Player.vel b).x).toReal ≤ 300 →
        ((Player.update dt b rand).1.position.x).toReal =
          (b.position.x + dt * (Player.vel b).x).toReal)) ∧
      (((b.position.y + dt * (Player.vel b).y).toReal < 0 →
        ((Player.update dt b rand).1.position.y).toReal = 0) ∧
       (500 < (b.position.y + dt * (Player.vel b).y).toReal →
        ((Player.update dt b rand).1.position.y).toReal = 500) ∧
       (0 ≤ (b.position.y + dt * (Player.vel b).y).toReal →
        (b.position.y + dt * (Player.vel b).y).toReal ≤ 500 →
        ((Player.update dt b rand).1.position.y).toReal =
          (b.position.y + dt * (Player.vel b).y).toReal)) := by
  intro b dt rand
  have hx : ((Player.update dt b rand).1.position.x).toReal =
      min (max 0 ((b.position.x + dt * (Player.vel b).x).toReal)) 300 := by
    rw [Player.update_position_x, Q2.toReal_minQ, Q2.toReal_maxQ, Q2.toReal_ofRat,
      Q2.toReal_ofRat]
    norm_num [canvasW]
  have hy : ((Player.update dt b rand).1.position.y).toReal =
      min (max 0 ((b.position.y + dt * (Player.vel b).y).toReal)) 500 := by
    rw [Player.update_position_y, Q2.toReal_minQ, Q2.toReal_maxQ, Q2.toReal_ofRat,
      Q2.toReal_ofRat]
    norm_num [canvasH]
  refine ⟨hx, hy, ⟨?_, ?_⟩, ⟨?_, ?_⟩, ⟨?_, ?_, ?_⟩, ⟨?_, ?_, ?_⟩⟩
  · rw [hx]
    exact le_min (le_max_left 0 _) (by norm_num)
  · rw [hx]
    exact min_le_right _ 300
  · rw [hy]
    exact le_min (le_max_left 0 _) (by norm_num)
  · rw [hy]
    exact min_le_right _ 500
  · intro h
    rw [hx, max_eq_left (le_of_lt h)]
    norm_num
  · intro h
    rw [hx, max_eq_right (by linarith), min_eq_right (le_of_lt h)]
  · intro h1 h2
    rw [hx, max_eq_right h1, min_eq_left h2]
  · intro h
    rw [hy, max_eq_left (le_of_lt h)]
    norm_num
  · intro h
    rw [hy, max_eq_right (by linarith), min_eq_right (le_of_lt h)]
  · intro h1 h2
    rw [hy, max_eq_right h1, min_eq_left h2]

/-- A player standing far outside the playfield on both axes, used as the
witness input of claim C8. -/
def outsidePlayer : Body :=
  { Player.init with position := ⟨Q2.ofRat 1000, Q2.ofRat (-50)⟩ }

/-- Claim C8 witness: clamping the outside player lands exactly on the
boundary: x becomes 300 and y becomes 0. -/
theorem claim_C8_witness :
    ((Player.update (Q2.ofRat (1/60)) outsidePlayer []).1.position.x).toReal = 300 ∧
    ((Player.update (Q2.ofRat (1/60)) outsidePlayer []).1.position.y).toReal = 0 := by
  have h := claim_C8 outsidePlayer (Q2.ofRat (1/60)) []
  have hxv : ((outsidePlayer.position.x +
      Q2.ofRat (1/60) * (Player.vel outsidePlayer).x).toReal) = 1000 := by
    norm_num [outsidePlayer, Player.init, Player.vel, Body.base, Q2.toReal, Q2.ofRat]
  have hyv : ((outsidePlayer.position.y +
      Q2.ofRat (1/60) * (Player.vel outsidePlayer).y).toReal) = -50 := by
    norm_num [outsidePlayer, Player.init, Player.vel, Body.base, Q2.toReal, Q2.ofRat]
  exact ⟨h.2.2.2.2.1.2.1 (by rw [hxv]; norm_num),
         h.2.2.2.2.2.1 (by rw [hyv]; norm_num)⟩

/-!
Claims C1 and C3: the collision rule table and the number of times an
effect is applied per overlapping tick.
-/

/-- The AABB overlap test is symmetric in its two bodies. -/
theorem aabb_symm (r1 r2 : Body) : aabb r1 r2 = aabb r2 r1 := by
  unfold aabb
  simp [Bool.and_comm, Bool.and_left_comm, Bool.and_assoc]

/-- Full scan of a registry holding exactly an overlapping Player and Mob:
the player loses exactly 20 health and exactly the mob's id is queued; the
(Mob, Player) ordering matches no rule. -/
theorem scanPM (P M : Body) (rid pid : ℕ) (sa : Q2) (rand : List ℚ)
    (hP : P.type = BType.Player) (hM : M.type = BType.Mob)
    (hab : aabb P M = true) :
    CollissionChecker.update ⟨[(1, P), (2, M)], [], rid, pid, sa, rand⟩ =
      ⟨[(1, { P with health := P.health - 20 }), (2, M)], [2], rid, pid, sa, rand⟩ := by
  unfold CollissionChecker.update
  simp [keysOf, pairEffect, lookupEnt, modifyEnt, hab, hP, hM]

/-- Full scan of a registry holding two bodies of the same kind: nothing
changes. -/
theorem scanSame (A B : Body) (q : List ℕ) (rid pid : ℕ) (sa : Q2) (rand : List ℚ)
    (h : A.type = B.type) :
    CollissionChecker.update ⟨[(1, A), (2, B)], q, rid, pid, sa, rand⟩ =
      ⟨[(1, A), (2, B)], q, rid, pid, sa, rand⟩ := by
  unfold CollissionChecker.update
  simp [keysOf, pairEffect, lookupEnt, h]

/-- Full scan of a registry holding a Player and a Projectile: no rule is
defined for this kind combination, so nothing changes (whether or not they
overlap). -/
theorem scanPR (Pl R : Body) (q : List ℕ) (rid pid : ℕ) (sa : Q2) (rand : List ℚ)
    (hP : Pl.type = BType.Player) (hR : R.type = BType.Projectile) :
    CollissionChecker.update ⟨[(1, Pl), (2, R)], q, rid, pid, sa, rand⟩ =
      ⟨[(1, Pl), (2, R)], q, rid, pid, sa, rand⟩ := by
  unfold CollissionChecker.update
  simp [keysOf, pairEffect, lookupEnt, hP, hR]

/-- Full scan of a registry holding the player (overlapping nothing) and an
overlapping Projectile and Mob: both their ids are queued (mob first, as
rect2.remove() runs before rect1.remove()) and the player's kill count
increments by exactly 1. -/
theorem scanRM (Pl R M : Body) (rid : ℕ) (sa : Q2) (rand : List ℚ)
    (hPl : Pl.type = BType.Player) (hR : R.type = BType.Projectile)
    (hM : M.type = BType.Mob)
    (hab : aabb R M = true) (h1 : aabb Pl R = false) (h2 : aabb Pl M = false) :
    CollissionChecker.update ⟨[(1, Pl), (2, R), (3, M)], [], rid, 1, sa, rand⟩ =
      ⟨[(1, { Pl with mobsKilled := Pl.mobsKilled + 1 }), (2, R), (3, M)],
        [3, 2], rid, 1, sa, rand⟩ := by
  have h1s : aabb R Pl = false := by rw [aabb_symm]; exact h1
  have h2s : aabb M Pl = false := by rw [aabb_symm]; exact h2
  unfold CollissionChecker.update
  simp [keysOf, pairEffect, lookupEnt, modifyEnt, hPl, hR, hM, hab, h1, h2, h1s, h2s]

/-- Concrete Player at (0,0) size 11 by 10 (the spec's concrete collision
case). -/
def colPlayer : Body :=
  { Body.base with
    type := BType.Player
    position := ⟨Q2.ofRat 0, Q2.ofRat 0⟩
    size := ⟨Q2.ofRat 11, Q2.ofRat 10⟩ }

/-- Concrete Mob at (5,5) size 10 by 20 (the spec's concrete collision
case). -/
def colMob : Body :=
  { Body.base with
    type := BType.Mob
    position := ⟨Q2.ofRat 5, Q2.ofRat 5⟩
    size := ⟨Q2.ofRat 10, Q2.ofRat 20⟩ }

/-- Concrete Projectile at (10,10) size 3 by 12. -/
def colProjectile : Body :=
  { Body.base with
    type := BType.Projectile
    position := ⟨Q2.ofRat 10, Q2.ofRat 10⟩
    size := ⟨Q2.ofRat 3, Q2.ofRat 12⟩ }

/-- Concrete Mob at (10,15) size 10 by 20, overlapping colProjectile. -/
def colMob2 : Body :=
  { Body.base with
    type := BType.Mob
    position := ⟨Q2.ofRat 10, Q2.ofRat 15⟩
    size := ⟨Q2.ofRat 10, Q2.ofRat 20⟩ }

/-- Concrete Player far away at (200,400), overlapping nothing. -/
def colFarPlayer : Body :=
  { Body.base with
    type := BType.Player
    position := ⟨Q2.ofRat 200, Q2.ofRat 400⟩
    size := ⟨Q2.ofRat 11, Q2.ofRat 10⟩ }

/-- Registry holding the overlapping concrete Player and Mob. -/
def wPM : World := ⟨[(1, colPlayer), (2, colMob)], [], 5, 1, Q2.ofRat 0, []⟩

/-- Registry holding the far player and the overlapping concrete Projectile
and Mob. -/
def wRM : World :=
  ⟨[(1, colFarPlayer), (2, colProjectile), (3, colMob2)], [], 9, 1, Q2.ofRat 0, []⟩

/-- Claim C1 counterexample: one full collision scan over the overlapping
Player/Mob pair costs the player 20 health (100 to 80), not 40, and queues
the mob once; one full scan over the overlapping Projectile/Mob pair
increments the kill count to 1, not 2: only the (Player, Mob) and
(Projectile, Mob) orderings match a rule, the reverse orderings match
none, so each effect is applied once per overlapping tick, not twice. -/
theorem claim_C1_counterexample :
    ((lookupEnt (CollissionChecker.update wPM).entities 1).map Body.health = some 80 ∧
      ¬ ((lookupEnt (CollissionChecker.update wPM).entities 1).map Body.health
          = some (100 - 2 * 20)) ∧
      (CollissionChecker.update wPM).queued = [2]) ∧
    ((lookupEnt (CollissionChecker.update wRM).entities 1).map Body.mobsKilled = some 1 ∧
      ¬ ((lookupEnt (CollissionChecker.update wRM).entities 1).map Body.mobsKilled
          = some 2)) := by
  have e1 : CollissionChecker.update wPM =
      ⟨[(1, { colPlayer with health := colPlayer.health - 20 }), (2, colMob)],
        [2], 5, 1, Q2.ofRat 0, []⟩ :=
    scanPM colPlayer colMob 5 1 (Q2.ofRat 0) [] rfl rfl
      (by norm_num [aabb, colPlayer, colMob, Body.base, Q2.blt, Q2.pos])
  have e2 : CollissionChecker.update wRM =
      ⟨[(1, { colFarPlayer with mobsKilled := colFarPlayer.mobsKilled + 1 }),
        (2, colProjectile), (3, colMob2)], [3, 2], 9, 1, Q2.ofRat 0, []⟩ :=
    scanRM colFarPlayer colProjectile colMob2 9 (Q2.ofRat 0) [] rfl rfl rfl
      (by norm_num [aabb, colProjectile, colMob2, Body.base, Q2.blt, Q2.pos])
      (by norm_num [aabb, colFarPlayer, colProjectile, Body.base, Q2.blt, Q2.pos])
      (by norm_num [aabb, colFarPlayer, colMob2, Body.base, Q2.blt, Q2.pos])
  rw [e1, e2]
  refine ⟨⟨?_, ?_, rfl⟩, ?_, ?_⟩ <;>
    simp [lookupEnt, colPlayer, colFarPlayer, Body.base]

/-- Claim C1 (amended): the ordered-pair scan applies each Player/Mob and
Projectile/Mob effect exactly ONCE per overlapping tick, because only the
ordering with the Player (respectively the Projectile) as rect1 matches a
rule: the reverse ordering, with the Mob as rect1, matches no rule and has
no effect.  Per full scan the player loses exactly 20 health per
overlapping mob pair, and the kill count increments by exactly 1 per
overlapping projectile/mob pair. -/
theorem claim_C1 :
    (∀ (w : World) (i j : ℕ) (A B : Body),
      lookupEnt w.entities i = some A → lookupEnt w.entities j = some B →
      A.type = BType.Mob →
      (B.type = BType.Player ∨ B.type = BType.Projectile) →
      pairEffect w (i, j) = w) ∧
    (∀ (P M : Body) (rid pid : ℕ) (sa : Q2) (rand : List ℚ),
      P.type = BType.Player → M.type = BType.Mob → aabb P M = true →
      (lookupEnt (CollissionChecker.update
          ⟨[(1, P), (2, M)], [], rid, pid, sa, rand⟩).entities 1).map Body.health
        = some (P.health - 20) ∧
      (CollissionChecker.update
          ⟨[(1, P), (2, M)], [], rid, pid, sa, rand⟩).queued = [2]) ∧
    (∀ (Pl R M : Body) (rid : ℕ) (sa : Q2) (rand : List ℚ),
      Pl.type = BType.Player → R.type = BType.Projectile → M.type = BType.Mob →
      aabb R M = true → aabb Pl R = false → aabb Pl M = false →
      (lookupEnt (CollissionChecker.update
          ⟨[(1, Pl), (2, R), (3, M)], [], rid, 1, sa, rand⟩).entities 1).map
            Body.mobsKilled = some (Pl.mobsKilled + 1) ∧
      (CollissionChecker.update
          ⟨[(1, Pl), (2, R), (3, M)], [], rid, 1, sa, rand⟩).queued = [3, 2]) := by
  refine ⟨?_, ?_, ?_⟩
  · intro w i j A B hi hj hA hB
    unfold pairEffect
    rcases hB with hB | hB <;> simp [hi, hj, hA, hB]
  · intro P M rid pid sa rand hP hM hab
    rw [scanPM P M rid pid sa rand hP hM hab]
    simp [lookupEnt]
  · intro Pl R M rid sa rand hPl hR hM hab h1 h2
    rw [scanRM Pl R M rid sa rand hPl hR hM hab h1 h2]
    simp [lookupEnt]

/-- Claim C1 witness: the amended theorem's once-per-scan facts applied to
the concrete overlapping pairs. -/
theorem claim_C1_witness :
    (lookupEnt (CollissionChecker.update
        ⟨[(1, colPlayer), (2, colMob)], [], 5, 1, Q2.ofRat 0, []⟩).entities 1).map
          Body.health = some (colPlayer.health - 20) ∧
    (CollissionChecker.update
        ⟨[(1, colPlayer), (2, colMob)], [], 5, 1, Q2.ofRat 0, []⟩).queued = [2] :=
  (claim_C1.2.1) colPlayer colMob 5 1 (Q2.ofRat 0) [] rfl rfl
    (by norm_num [aabb, colPlayer, colMob, Body.base, Q2.blt, Q2.pos])

/-- Claim C3: the collision rule table at the level of one full scan of the
resolver: a same-kind pair has no effect; an overlapping Player/Mob pair
costs the player exactly 20 health and queues exactly the mob; an
overlapping Projectile/Mob pair queues both and increments the kill count by
exactly 1; a Player/Projectile pair (the only other kind combination) has no
effect. -/
theorem claim_C3 :
    (∀ (A B : Body) (q : List ℕ) (rid pid : ℕ) (sa : Q2) (rand : List ℚ),
      A.type = B.type →
      CollissionChecker.update ⟨[(1, A), (2, B)], q, rid, pid, sa, rand⟩ =
        ⟨[(1, A), (2, B)], q, rid, pid, sa, rand⟩) ∧
    (∀ (P M : Body) (rid pid : ℕ) (sa : Q2) (rand : List ℚ),
      P.type = BType.Player → M.type = BType.Mob → aabb P M = true →
      CollissionChecker.update ⟨[(1, P), (2, M)], [], rid, pid, sa, rand⟩ =
        ⟨[(1, { P with health := P.health - 20 }), (2, M)], [2], rid, pid, sa, rand⟩) ∧
    (∀ (Pl R M : Body) (rid : ℕ) (sa : Q2) (rand : List ℚ),
      Pl.type = BType.Player → R.type = BType.Projectile → M.type = BType.Mob →
      aabb R M = true → aabb Pl R = false → aabb Pl M = false →
      CollissionChecker.update ⟨[(1, Pl), (2, R), (3, M)], [], rid, 1, sa, rand⟩ =
        ⟨[(1, { Pl with mobsKilled := Pl.mobsKilled + 1 }), (2, R), (3, M)],
          [3, 2], rid, 1, sa, rand⟩) ∧
    (∀ (Pl R : Body) (q : List ℕ) (rid pid : ℕ) (sa : Q2) (rand : List ℚ),
      Pl.type = BType.Player → R.type = BType.Projectile →
      CollissionChecker.update ⟨[(1, Pl), (2, R)], q, rid, pid, sa, rand⟩ =
        ⟨[(1, Pl), (2, R)], q, rid, pid, sa, rand⟩) :=
  ⟨fun A B q rid pid sa rand h => scanSame A B q rid pid sa rand h,
   fun P M rid pid sa rand hP hM hab => scanPM P M rid pid sa rand hP hM hab,
   fun Pl R M rid sa rand hPl hR hM hab h1 h2 =>
     scanRM Pl R M rid sa rand hPl hR hM hab h1 h2,
   fun Pl R q rid pid sa rand hP hR => scanPR Pl R q rid pid sa rand hP hR⟩

/-- Claim C3 witness: the rule table applied to the spec's concrete
Projectile/Mob case, with the far player holding the kill count. -/
theorem claim_C3_witness :
    CollissionChecker.update
        ⟨[(1, colFarPlayer), (2, colProjectile), (3, colMob2)], [], 9, 1,
          Q2.ofRat 0, []⟩ =
      ⟨[(1, { colFarPlayer with mobsKilled := colFarPlayer.mobsKilled + 1 }),
        (2, colProjectile), (3, colMob2)], [3, 2], 9, 1, Q2.ofRat 0, []⟩ :=
  (claim_C3.2.2.1) colFarPlayer colProjectile colMob2 9 (Q2.ofRat 0) [] rfl rfl rfl
    (by norm_num [aabb, colProjectile, colMob2, Body.base, Q2.blt, Q2.pos])
    (by norm_num [aabb, colFarPlayer, colProjectile, Body.base, Q2.blt, Q2.pos])
    (by norm_num [aabb, colFarPlayer, colMob2, Body.base, Q2.blt, Q2.pos])

/-!
Registry machinery for claims C5 and C9: how each tick phase transforms the
set of live ids, the identity counter and the removal queue.
-/

theorem keysOf_modifyEnt (es : List (ℕ × Body)) (id : ℕ) (f : Body → Body) :
    keysOf (modifyEnt es id f) = keysOf es := by
  induction es with
  | nil => rfl
  | cons e es ih =>
    show ((if e.1 = id then (e.1, f e.2) else e).1) :: keysOf (modifyEnt es id f)
      = e.1 :: keysOf es
    rw [ih]
    congr 1
    split <;> rfl

theorem keysOf_append (es1 es2 : List (ℕ × Body)) :
    keysOf (es1 ++ es2) = keysOf es1 ++ keysOf es2 := List.map_append _ _ _

theorem lookupEnt_mem {es : List (ℕ × Body)} {id : ℕ} {b : Body}
    (h : lookupEnt es id = some b) : id ∈ keysOf es := by
  induction es with
  | nil => simp [lookupEnt] at h
  | cons e es ih =>
    unfold lookupEnt at h
    by_cases he : e.1 = id
    · rw [← he]
      exact List.mem_cons_self _ _
    · rw [if_neg he] at h
      exact List.mem_cons_of_mem _ (ih h)

theorem keysOf_filter_subset (es : List (ℕ × Body)) (p : ℕ × Body → Bool) :
    ∀ k ∈ keysOf (es.filter p), k ∈ keysOf es := by
  intro k hk
  unfold keysOf at hk ⊢
  rcases List.mem_map.mp hk with ⟨e, he, rfl⟩
  exact List.mem_map.mpr ⟨e, (List.mem_filter.mp he).1, rfl⟩

theorem keysOf_filter_ne (es : List (ℕ × Body)) (a : ℕ) :
    a ∉ keysOf (es.filter (fun e => e.1 != a)) := by
  intro hk
  rcases List.mem_map.mp hk with ⟨e, he, hfst⟩
  have := (List.mem_filter.mp he).2
  rw [hfst] at this
  simp at this

/-- Purging never re-adds an id: the surviving keys come from the original
registry. -/
theorem purge_subset : ∀ (q : List ℕ) (es : List (ℕ × Body)) (k : ℕ),
    k ∈ keysOf (purgeEnts es q) → k ∈ keysOf es := by
  intro q
  induction q with
  | nil => intro es k hk; exact hk
  | cons a q ih =>
    intro es k hk
    exact keysOf_filter_subset es _ k (ih _ k hk)

/-- Purging removes every queued id from the registry. -/
theorem purge_not_mem : ∀ (q : List ℕ) (es : List (ℕ × Body)) (id : ℕ),
    id ∈ q → id ∉ keysOf (purgeEnts es q) := by
  intro q
  induction q with
  | nil => intro es id h; simp at h
  | cons a q ih =>
    intro es id h hk
    rcases List.mem_cons.mp h with rfl | hm
    · exact keysOf_filter_ne es id (purge_subset q _ id hk)
    · exact ih _ id hm hk

/-- What one step of the per-entity update pass can do to the registry: the
keys are unchanged, or exactly one fresh key (the current running_id) is
appended with the counter incremented; the queue is unchanged or the
stepped id (a live key) is appended; playerId and the spawner accumulator
never change. -/
theorem stepEntity_spec (dt : Q2) (w : World) (id : ℕ) :
    (keysOf (stepEntity dt w id).entities = keysOf w.entities ∧
       (stepEntity dt w id).running_id = w.running_id ∨
     keysOf (stepEntity dt w id).entities = keysOf w.entities ++ [w.running_id] ∧
       (stepEntity dt w id).running_id = w.running_id + 1) ∧
    (stepEntity dt w id).playerId = w.playerId ∧
    (stepEntity dt w id).spawnAcc = w.spawnAcc ∧
    ((stepEntity dt w id).queued = w.queued ∨
      ((stepEntity dt w id).queued = w.queued ++ [id] ∧ id ∈ keysOf w.entities)) := by
  unfold stepEntity
  split
  · exact ⟨Or.inl ⟨rfl, rfl⟩, rfl, rfl, Or.inl rfl⟩
  · next b hl =>
    have hmem := lookupEnt_mem hl
    split
    · dsimp only
      split
      · refine ⟨Or.inr ⟨?_, rfl⟩, rfl, rfl, Or.inl rfl⟩
        rw [keysOf_append, keysOf_modifyEnt]
        rfl
      · exact ⟨Or.inl ⟨keysOf_modifyEnt _ _ _, rfl⟩, rfl, rfl, Or.inl rfl⟩
    · dsimp only
      refine ⟨Or.inl ⟨keysOf_modifyEnt _ _ _, rfl⟩, rfl, rfl, ?_⟩
      by_cases hrem : (Projectile.update dt b).2 = true
      · exact Or.inr ⟨by rw [if_pos hrem], hmem⟩
      · exact Or.inl (by rw [if_neg hrem])
    · dsimp only
      refine ⟨Or.inl ⟨keysOf_modifyEnt _ _ _, rfl⟩, rfl, rfl, ?_⟩
      by_cases hrem : (Mob.update dt b w.rand).2.1 = true
      · exact Or.inr ⟨by rw [if_pos hrem], hmem⟩
      · exact Or.inl (by rw [if_neg hrem])

/-- Well-formed registry: every live id is below the identity counter. -/
def WFids (w : World) : Prop := ∀ k ∈ keysOf w.entities, k < w.running_id

/-- Relation between a world and a later world of the same tick: the counter
never decreases, and every live id either was live before or is fresh (at
least the old counter and below the new one).  Fresh ids are therefore never
ids that were assigned and removed earlier. -/
def StepRel (w w' : World) : Prop :=
  w.running_id ≤ w'.running_id ∧
  ∀ k ∈ keysOf w'.entities, k ∈ keysOf w.entities ∨
    (w.running_id ≤ k ∧ k < w'.running_id)

theorem stepRel_refl (w : World) : StepRel w w :=
  ⟨le_rfl, fun _ hk => Or.inl hk⟩

theorem stepRel_trans {w w' w'' : World} (h1 : StepRel w w') (h2 : StepRel w' w'') :
    StepRel w w'' := by
  refine ⟨le_trans h1.1 h2.1, fun k hk => ?_⟩
  rcases h2.2 k hk with h | ⟨ha, hb⟩
  · rcases h1.2 k h with h' | ⟨ha', hb'⟩
    · exact Or.inl h'
    · exact Or.inr ⟨ha', lt_of_lt_of_le hb' h2.1⟩
  · exact Or.inr ⟨le_trans h1.1 ha, hb⟩

theorem wfids_mono {w w' : World} (h : StepRel w w') (hw : WFids w) : WFids w' := by
  intro k hk
  rcases h.2 k hk with hm | ⟨_, hb⟩
  · exact lt_of_lt_of_le (hw k hm) h.1
  · exact hb

theorem stepRel_stepEntity (dt : Q2) (w : World) (id : ℕ) :
    StepRel w (stepEntity dt w id) := by
  obtain ⟨hkeys, _, _, _⟩ := stepEntity_spec dt w id
  rcases hkeys with ⟨hk, hr⟩ | ⟨hk, hr⟩
  · exact ⟨le_of_eq hr.symm, fun k hkk => Or.inl (hk ▸ hkk)⟩
  · refine ⟨by omega, fun k hkk => ?_⟩
    rw [hk] at hkk
    rcases List.mem_append.mp hkk with h | h
    · exact Or.inl h
    · simp at h
      subst h
      exact Or.inr ⟨le_rfl, by omega⟩

theorem stepRel_foldl (dt : Q2) : ∀ (ids : List ℕ) (w : World),
    StepRel w (ids.foldl (stepEntity dt) w) := by
  intro ids
  induction ids with
  | nil => exact fun w => stepRel_refl w
  | cons i ids ih =>
    exact fun w => stepRel_trans (stepRel_stepEntity dt w i) (ih (stepEntity dt w i))

/-- One ordered pair of the scan never changes the set of live ids, the
identity counter, the player id, the spawner state or the random stream; it
only appends ids of live entities to the removal queue. -/
theorem pairEffect_spec (w : World) (ij : ℕ × ℕ) :
    keysOf (pairEffect w ij).entities = keysOf w.entities ∧
    (pairEffect w ij).running_id = w.running_id ∧
    (pairEffect w ij).playerId = w.playerId ∧
    (pairEffect w ij).spawnAcc = w.spawnAcc ∧
    (pairEffect w ij).rand = w.rand ∧
    ∃ added : List ℕ, (pairEffect w ij).queued = w.queued ++ added ∧
      ∀ k ∈ added, k ∈ keysOf w.entities := by
  unfold pairEffect
  split
  · next r1 r2 h1 h2 =>
    have hm1 := lookupEnt_mem h1
    have hm2 := lookupEnt_mem h2
    split
    · split
      · exact ⟨rfl, rfl, rfl, rfl, rfl, [], (List.append_nil _).symm, by simp⟩
      · split
        · refine ⟨keysOf_modifyEnt _ _ _, rfl, rfl, rfl, rfl, [ij.2], rfl, ?_⟩
          intro k hk
          simp at hk
          subst hk
          exact hm2
        · split
          · refine ⟨keysOf_modifyEnt _ _ _, rfl, rfl, rfl, rfl, [ij.2, ij.1], rfl, ?_⟩
            intro k hk
            simp at hk
            rcases hk with rfl | rfl
            · exact hm2
            · exact hm1
          · exact ⟨rfl, rfl, rfl, rfl, rfl, [], (List.append_nil _).symm, by simp⟩
    · exact ⟨rfl, rfl, rfl, rfl, rfl, [], (List.append_nil _).symm, by simp⟩
  · exact ⟨rfl, rfl, rfl, rfl, rfl, [], (List.append_nil _).symm, by simp⟩

theorem scan_foldl_spec : ∀ (pairs : List (ℕ × ℕ)) (w : World),
    keysOf (pairs.foldl pairEffect w).entities = keysOf w.entities ∧
    (pairs.foldl pairEffect w).running_id = w.running_id ∧
    (pairs.foldl pairEffect w).playerId = w.playerId ∧
    ∃ added, (pairs.foldl pairEffect w).queued = w.queued ++ added ∧
      ∀ k ∈ added, k ∈ keysOf w.entities := by
  intro pairs
  induction pairs with
  | nil =>
    intro w
    exact ⟨rfl, rfl, rfl, [], (List.append_nil _).symm, fun k hk => by simp at hk⟩
  | cons p ps ih =>
    intro w
    obtain ⟨k1, r1, p1, _, _, a1, q1, m1⟩ := pairEffect_spec w p
    obtain ⟨k2, r2, p2, a2, q2, m2⟩ := ih (pairEffect w p)
    refine ⟨k2.trans k1, r2.trans r1, p2.trans p1, a1 ++ a2, ?_, ?_⟩
    · show (ps.foldl pairEffect (pairEffect w p)).queued = _
      rw [q2, q1, List.append_assoc]
    · intro k hk
      rcases List.mem_append.mp hk with h | h
      · exact m1 k h
      · exact k1 ▸ m2 k h

/-- The whole collision scan: the registry's ids, the counter and the player
id are untouched (removal is never applied mid-scan); only ids of live
entities are appended to the queue. -/
theorem collision_spec (w : World) :
    keysOf (CollissionChecker.update w).entities = keysOf w.entities ∧
    (CollissionChecker.update w).running_id = w.running_id ∧
    (CollissionChecker.update w).playerId = w.playerId ∧
    ∃ added, (CollissionChecker.update w).queued = w.queued ++ added ∧
      ∀ k ∈ added, k ∈ keysOf w.entities :=
  scan_foldl_spec _ w

theorem spawner_spec (dt : Q2) (w : World) :
    (keysOf (Enemy_Spawner.update dt w).entities = keysOf w.entities ∧
       (Enemy_Spawner.update dt w).running_id = w.running_id ∨
     keysOf (Enemy_Spawner.update dt w).entities = keysOf w.entities ++ [w.running_id] ∧
       (Enemy_Spawner.update dt w).running_id = w.running_id + 1) ∧
    (Enemy_Spawner.update dt w).queued = w.queued ∧
    (Enemy_Spawner.update dt w).playerId = w.playerId := by
  unfold Enemy_Spawner.update
  dsimp only
  split
  · refine ⟨Or.inr ⟨?_, rfl⟩, rfl, rfl⟩
    rw [keysOf_modifyEnt, keysOf_append]
    rfl
  · exact ⟨Or.inl ⟨rfl, rfl⟩, rfl, rfl⟩

theorem stepRel_spawner (dt : Q2) (w : World) : StepRel w (Enemy_Spawner.update dt w) := by
  obtain ⟨hkeys, _, _⟩ := spawner_spec dt w
  rcases hkeys with ⟨hk, hr⟩ | ⟨hk, hr⟩
  · exact ⟨le_of_eq hr.symm, fun k hkk => Or.inl (hk ▸ hkk)⟩
  · refine ⟨by omega, fun k hkk => ?_⟩
    rw [hk] at hkk
    rcases List.mem_append.mp hkk with h | h
    · exact Or.inl h
    · simp at h
      subst h
      exact Or.inr ⟨le_rfl, by omega⟩

theorem stepRel_start (w : World) : StepRel w (start w) := by
  refine ⟨Nat.le_succ _, fun k hk => ?_⟩
  have : k = w.running_id := by
    simpa [start, keysOf] using hk
  subst this
  exact Or.inr ⟨le_rfl, Nat.lt_succ_self _⟩

theorem stepRel_poll (ctrl : Controller) (w : World) : StepRel w (phasePoll ctrl w) :=
  ⟨le_rfl, fun _ hk => Or.inl ((keysOf_modifyEnt _ _ _) ▸ hk)⟩

theorem stepRel_purge (w : World) : StepRel w (phasePurge w) :=
  ⟨le_rfl, fun k hk => Or.inl (purge_subset _ _ k hk)⟩

theorem stepRel_collision (w : World) : StepRel w (CollissionChecker.update w) :=
  ⟨le_of_eq (collision_spec w).2.1.symm, fun _ hk => Or.inl ((collision_spec w).1 ▸ hk)⟩

/-- The whole tick preserves the step relation: the counter is monotone and
every id live after the tick either was live before or is fresh. -/
theorem stepRel_update (ctrl : Controller) (dt : Q2) (w : World) :
    StepRel w (update ctrl dt w) := by
  unfold update
  dsimp only
  have h1 := stepRel_poll ctrl w
  have h2 := stepRel_foldl dt (keysOf (phasePoll ctrl w).entities) (phasePoll ctrl w)
  have h3 := stepRel_collision (phaseEntities dt (phasePoll ctrl w))
  have h4 := stepRel_purge (CollissionChecker.update (phaseEntities dt (phasePoll ctrl w)))
  have h5 := stepRel_spawner dt
    (phasePurge (CollissionChecker.update (phaseEntities dt (phasePoll ctrl w))))
  have hchain := stepRel_trans h1 (stepRel_trans h2 (stepRel_trans h3 (stepRel_trans h4 h5)))
  split
  · exact stepRel_trans hchain (stepRel_start _)
  · exact hchain

/-!
Claims C5 and C9: deferred removal and identity freshness.
-/

/-- Queue liveness: every id in the removal queue is a live key. -/
def QLive (w : World) : Prop := ∀ id ∈ w.queued, id ∈ keysOf w.entities

theorem qlive_stepEntity (dt : Q2) (w : World) (id : ℕ) (h : QLive w) :
    QLive (stepEntity dt w id) := by
  obtain ⟨hkeys, _, _, hq⟩ := stepEntity_spec dt w id
  have hsub : ∀ k, k ∈ keysOf w.entities → k ∈ keysOf (stepEntity dt w id).entities := by
    rcases hkeys with ⟨hk, _⟩ | ⟨hk, _⟩ <;> rw [hk] <;> intro k hk2
    · exact hk2
    · exact List.mem_append.mpr (Or.inl hk2)
  intro i hi
  rcases hq with hq | ⟨hq, hm⟩
  · rw [hq] at hi
    exact hsub i (h i hi)
  · rw [hq] at hi
    rcases List.mem_append.mp hi with h2 | h2
    · exact hsub i (h i h2)
    · simp at h2
      subst h2
      exact hsub i hm

theorem qlive_foldl (dt : Q2) : ∀ (ids : List ℕ) (w : World), QLive w →
    QLive (ids.foldl (stepEntity dt) w) := by
  intro ids
  induction ids with
  | nil => exact fun _ h => h
  | cons i ids ih => exact fun w h => ih _ (qlive_stepEntity dt w i h)

theorem qlive_collision (w : World) (h : QLive w) :
    QLive (CollissionChecker.update w) := by
  obtain ⟨hk, _, _, added, hq, hmem⟩ := collision_spec w
  intro i hi
  rw [hq] at hi
  rw [hk]
  rcases List.mem_append.mp hi with h2 | h2
  · exact h i h2
  · exact hmem i h2

/-- Claim C5: within one tick started with an empty removal queue, (a) one
ordered pair of the collision scan never deletes a registry entry (removal
is never applied mid-scan), (b) the whole scan leaves the set of live ids
unchanged, (c) every id queued for removal during the tick (by an entity's
own update or by the resolver) is a live key of the registry the scan runs
over, and (d) every such id is absent from the registry at the start of the
next tick. -/
theorem claim_C5 :
    ∀ (ctrl : Controller) (dt : Q2) (w : World), WFids w → w.queued = [] →
      (∀ (wst : World) (p : ℕ × ℕ),
        keysOf (pairEffect wst p).entities = keysOf wst.entities) ∧
      keysOf (CollissionChecker.update (phaseEntities dt (phasePoll ctrl w))).entities
        = keysOf (phaseEntities dt (phasePoll ctrl w)).entities ∧
      (∀ id ∈ (CollissionChecker.update (phaseEntities dt (phasePoll ctrl w))).queued,
        id ∈ keysOf (phaseEntities dt (phasePoll ctrl w)).entities) ∧
      (∀ id ∈ (CollissionChecker.update (phaseEntities dt (phasePoll ctrl w))).queued,
        id ∉ keysOf (update ctrl dt w).entities) := by
  intro ctrl dt w hwf hq
  set w1 := phasePoll ctrl w with hw1
  set w2 := phaseEntities dt w1 with hw2
  set w3 := CollissionChecker.update w2 with hw3
  have hql2 : QLive w2 := by
    apply qlive_foldl
    intro i hi
    rw [show w1.queued = w.queued from rfl, hq] at hi
    simp at hi
  have hql3 : QLive w3 := qlive_collision w2 hql2
  have hwf2 : WFids w2 :=
    wfids_mono (stepRel_trans (stepRel_poll ctrl w) (stepRel_foldl dt _ w1)) hwf
  have hq3keys : ∀ id ∈ w3.queued, id ∈ keysOf w2.entities := by
    intro id hid
    have := hql3 id hid
    rw [(collision_spec w2).1] at this
    exact this
  refine ⟨fun wst p => (pairEffect_spec wst p).1, (collision_spec w2).1, hq3keys, ?_⟩
  intro id hid
  have hid2 : id ∈ keysOf w2.entities := hq3keys id hid
  have hlt : id < w2.running_id := hwf2 id hid2
  set w4 := phasePurge w3 with hw4
  set w5 := Enemy_Spawner.update dt w4 with hw5
  have hup : update ctrl dt w = if restartQ w5 then start w5 else w5 := rfl
  have hrid3 : w3.running_id = w2.running_id := (collision_spec w2).2.1
  have hrid4 : w4.running_id = w3.running_id := rfl
  have h4 : id ∉ keysOf w4.entities := purge_not_mem w3.queued w3.entities id hid
  have h5 : id ∉ keysOf w5.entities := by
    obtain ⟨hkeys, _, _⟩ := spawner_spec dt w4
    rcases hkeys with ⟨hk, _⟩ | ⟨hk, _⟩
    · rw [hw5, hk]
      exact h4
    · rw [hw5, hk]
      intro hmem
      rcases List.mem_append.mp hmem with hmm | hmm
      · exact h4 hmm
      · simp at hmm
        omega
  by_cases hres : restartQ w5 = true
  · rw [hup, if_pos hres]
    intro hmem
    have hideq : id = w5.running_id := by simpa [start, keysOf] using hmem
    have hr5 : w4.running_id ≤ w5.running_id := (stepRel_spawner dt w4).1
    omega
  · rw [hup, if_neg hres]
    exact h5

/-- The freshly started world used as the witness input of claims C5 and
C9. -/
def world0 : World := start ⟨[], [], 0, 0, Q2.ofRat 0, []⟩

/-- Claim C5 witness: the theorem applied to the freshly started world (one
player, id 0, counter 1): the scan of that world's tick leaves the live id
set unchanged. -/
theorem claim_C5_witness :
    keysOf (CollissionChecker.update (phaseEntities (Q2.ofRat (1/60))
        (phasePoll ⟨0, 0, false⟩ world0))).entities
      = keysOf (phaseEntities (Q2.ofRat (1/60))
        (phasePoll ⟨0, 0, false⟩ world0)).entities :=
  (claim_C5 ⟨0, 0, false⟩ (Q2.ofRat (1/60)) world0
    (by simp [WFids, world0, start, keysOf]) rfl).2.1

/-- Claim C9: identities are strictly increasing and never reused.  For
every tick: the identity counter never decreases; every id live after the
tick either was already live or is fresh (at least the old counter and
below the new one, so an id below the counter - in particular one assigned
and removed earlier - is never assigned again); well-formedness (all live
ids below the counter) is preserved.  And start() continues the counter
rather than resetting it: the new player takes the old counter value as its
id and the counter moves to its successor. -/
theorem claim_C9 :
    (∀ (ctrl : Controller) (dt : Q2) (w : World),
      w.running_id ≤ (update ctrl dt w).running_id ∧
      (∀ k ∈ keysOf (update ctrl dt w).entities,
        k ∈ keysOf w.entities ∨
          (w.running_id ≤ k ∧ k < (update ctrl dt w).running_id)) ∧
      (WFids w → WFids (update ctrl dt w))) ∧
    (∀ w : World,
      (start w).running_id = w.running_id + 1 ∧
      (start w).playerId = w.running_id ∧
      keysOf (start w).entities = [w.running_id] ∧
      WFids (start w)) := by
  constructor
  · intro ctrl dt w
    have h := stepRel_update ctrl dt w
    exact ⟨h.1, h.2, fun hw => wfids_mono h hw⟩
  · intro w
    refine ⟨rfl, rfl, rfl, ?_⟩
    intro k hk
    have hkeq : k = w.running_id := by simpa [start, keysOf] using hk
    subst hkeq
    exact Nat.lt_succ_self _

/-!
Claim C10: every live Mob keeps a strictly positive (downward) y-velocity.
The invariant actually maintained is stronger: the y-velocity is always at
least 50 * sqrt 2 (the smallest of the three headings at speed 100).
-/

/-- The Q2 value 50 * sqrt 2 = 100 * SQRT1_2, the smallest downward speed a
mob's velocity headings allow. -/
def q50 : Q2 := ⟨0, 50⟩

theorem ble_q50_pos (v : Q2) (h : Q2.ble q50 v = true) : 0 < v.toReal := by
  have h1 := (Q2.ble_iff q50 v).mp h
  have h2 : q50.toReal = 50 * Real.sqrt 2 := by
    simp [q50, Q2.toReal]
  have h3 : 0 < Real.sqrt 2 := Q2.sqrt2_pos
  nlinarith

theorem mob_init_vy (r : ℚ) :
    Q2.ble q50 (Mob.init r).velocity.y = true ∧
    ((Mob.init r).velocity.y).toReal = 100 ∧ (Mob.init r).speed = 100 := by
  refine ⟨?_, ?_, rfl⟩
  · show Q2.ble q50 (Q2.ofRat 100) = true
    norm_num [Q2.ble, Q2.pos, q50, Q2.ofRat]
  · show (Q2.ofRat 100).toReal = 100
    simp

/-- The three headings switch() can pick all have y-velocity at least
50 * sqrt 2 when speed is 100, and switch() changes neither speed, type nor
position. -/
theorem mob_switch_good (b : Body) (rand : List ℚ) (hsp : b.speed = 100)
    (hv : Q2.ble q50 b.velocity.y = true) :
    Q2.ble q50 ((Mob.switch b rand).1.velocity.y) = true ∧
    (Mob.switch b rand).1.speed = 100 ∧
    (Mob.switch b rand).1.type = b.type := by
  unfold Mob.switch
  dsimp only
  split_ifs with h1 h2 h3
  · refine ⟨?_, hsp, rfl⟩
    show Q2.ble q50 (Q2.ofRat b.speed * Q2.sqrt12) = true
    rw [hsp]
    norm_num [Q2.ble, Q2.pos, q50, Q2.ofRat, Q2.sqrt12]
  · refine ⟨?_, hsp, rfl⟩
    show Q2.ble q50 (Q2.ofRat b.speed * Q2.sqrt12) = true
    rw [hsp]
    norm_num [Q2.ble, Q2.pos, q50, Q2.ofRat, Q2.sqrt12]
  · refine ⟨?_, hsp, rfl⟩
    show Q2.ble q50 (Q2.ofRat b.speed) = true
    rw [hsp]
    norm_num [Q2.ble, Q2.pos, q50, Q2.ofRat]
  · exact ⟨hv, hsp, rfl⟩

theorem mob_switch_position (b : Body) (rand : List ℚ) :
    (Mob.switch b rand).1.position = b.position := by
  unfold Mob.switch
  dsimp only
  split_ifs <;> rfl

/-- The boundary bounce overwrites only velocity.x. -/
theorem mob_bounce_fields (b : Body) :
    (Mob.bounce b).speed = b.speed ∧ (Mob.bounce b).velocity.y = b.velocity.y ∧
    (Mob.bounce b).type = b.type ∧ (Mob.bounce b).position = b.position := by
  unfold Mob.bounce
  split_ifs <;> exact ⟨rfl, rfl, rfl, rfl⟩

/-- One mob update keeps the y-velocity at least 50 * sqrt 2, keeps speed
100 and keeps the kind tag. -/
theorem mob_update_good (dt : Q2) (b : Body) (rand : List ℚ) (hsp : b.speed = 100)
    (hv : Q2.ble q50 b.velocity.y = true) :
    Q2.ble q50 ((Mob.update dt b rand).1.velocity.y) = true ∧
    (Mob.update dt b rand).1.speed = 100 ∧
    (Mob.update dt b rand).1.type = b.type := by
  have hb := mob_bounce_fields { b with accumulator := b.accumulator + dt }
  unfold Mob.update
  dsimp only
  split
  · have hg := mob_switch_good
      (Body.update dt (Mob.bounce { b with accumulator := b.accumulator + dt })) rand
      (by
        rw [show (Body.update dt (Mob.bounce { b with accumulator := b.accumulator + dt })).speed
              = (Mob.bounce { b with accumulator := b.accumulator + dt }).speed from rfl, hb.1]
        exact hsp)
      (by
        rw [show (Body.update dt (Mob.bounce { b with accumulator := b.accumulator + dt })).velocity.y
              = (Mob.bounce { b with accumulator := b.accumulator + dt }).velocity.y from rfl, hb.2.1]
        exact hv)
    exact ⟨hg.1, hg.2.1, hg.2.2.trans hb.2.2.1⟩
  · refine ⟨?_, ?_, hb.2.2.1⟩
    · rw [show (Body.update dt (Mob.bounce { b with accumulator := b.accumulator + dt })).velocity.y
            = (Mob.bounce { b with accumulator := b.accumulator + dt }).velocity.y from rfl, hb.2.1]
      exact hv
    · rw [show (Body.update dt (Mob.bounce { b with accumulator := b.accumulator + dt })).speed
            = (Mob.bounce { b with accumulator := b.accumulator + dt }).speed from rfl, hb.1]
      exact hsp

/-- The mob's new y position after one update is the old one advanced by
dt times the incoming y-velocity (the bounce touches only velocity.x and the
direction switch runs after the integration). -/
theorem mob_update_y (dt : Q2) (b : Body) (rand : List ℚ) :
    (Mob.update dt b rand).1.position.y = b.position.y + dt * b.velocity.y := by
  have hb := mob_bounce_fields { b with accumulator := b.accumulator + dt }
  unfold Mob.update
  dsimp only
  split
  · rw [mob_switch_position]
    show ((Mob.bounce { b with accumulator := b.accumulator + dt }).position.y +
      dt * (Mob.bounce { b with accumulator := b.accumulator + dt }).velocity.y) = _
    rw [hb.2.2.2, hb.2.1]
  · show ((Mob.bounce { b with accumulator := b.accumulator + dt }).position.y +
      dt * (Mob.bounce { b with accumulator := b.accumulator + dt }).velocity.y) = _
    rw [hb.2.2.2, hb.2.1]

/-- A body's C10 obligation: a Mob keeps y-velocity at least 50 * sqrt 2 and
speed 100 (bodies of other kinds owe nothing). -/
def BodyGood (b : Body) : Prop :=
  b.type = BType.Mob → (Q2.ble q50 b.velocity.y = true ∧ b.speed = 100)

/-- World-level C10 invariant: every live body is good. -/
def MobInv (w : World) : Prop := ∀ p ∈ w.entities, BodyGood p.2

theorem lookupEnt_val_mem {es : List (ℕ × Body)} {id : ℕ} {b : Body}
    (h : lookupEnt es id = some b) : ∃ p, p ∈ es ∧ p.2 = b := by
  induction es with
  | nil => simp [lookupEnt] at h
  | cons e es ih =>
    unfold lookupEnt at h
    by_cases he : e.1 = id
    · rw [if_pos he] at h
      exact ⟨e, List.mem_cons_self _ _, Option.some.inj h⟩
    · rw [if_neg he] at h
      obtain ⟨p, hp, hv⟩ := ih h
      exact ⟨p, List.mem_cons_of_mem _ hp, hv⟩

theorem modifyEnt_all {P : Body → Prop} :
    ∀ (es : List (ℕ × Body)) (id : ℕ) (f : Body → Body),
    (∀ p ∈ es, P p.2) → (∀ b, P b → P (f b)) →
    ∀ p ∈ modifyEnt es id f, P p.2 := by
  intro es
  induction es with
  | nil => intro id f _ _ p hp; simp [modifyEnt] at hp
  | cons e es ih =>
    intro id f h hf p hp
    rcases List.mem_cons.mp hp with rfl | hp2
    · split
      · exact hf _ (h e (List.mem_cons_self _ _))
      · exact h e (List.mem_cons_self _ _)
    · exact ih id f (fun q hq => h q (List.mem_cons_of_mem _ hq)) hf p hp2

theorem purge_entries_subset : ∀ (q : List ℕ) (es : List (ℕ × Body)) (p : ℕ × Body),
    p ∈ purgeEnts es q → p ∈ es := by
  intro q
  induction q with
  | nil => intro es p hp; exact hp
  | cons a q ih =>
    intro es p hp
    exact (List.mem_filter.mp (ih _ p hp)).1

theorem player_update_type (dt : Q2) (b : Body) (rand : List ℚ) :
    (Player.update dt b rand).1.type = b.type := by
  unfold Player.update
  dsimp only
  split <;> rfl

theorem player_update_proj_type (dt : Q2) (b : Body) (rand : List ℚ) {p : Body}
    (h : (Player.update dt b rand).2.1 = some p) : p.type = BType.Projectile := by
  unfold Player.update at h
  dsimp only at h
  split at h
  · exact ((Option.some.inj h).symm ▸ rfl)
  · cases h

theorem mobInv_stepEntity (dt : Q2) (w : World) (id : ℕ) (h : MobInv w) :
    MobInv (stepEntity dt w id) := by
  unfold stepEntity
  split
  · exact h
  · next b hl =>
    obtain ⟨pb, hpb, hpbv⟩ := lookupEnt_val_mem hl
    have hgood : BodyGood b := hpbv ▸ h pb hpb
    split
    · next hty =>
      dsimp only
      split
      · next p hproj =>
        intro q hq
        rcases List.mem_append.mp hq with hq | hq
        · refine modifyEnt_all _ _ _ h (fun b' _ => ?_) q hq
          intro hm
          rw [player_update_type] at hm
          rw [hty] at hm
          simp at hm
        · simp at hq
          subst hq
          show BodyGood p
          intro hm
          rw [player_update_proj_type dt b w.rand hproj] at hm
          simp at hm
      · intro q hq
        refine modifyEnt_all _ _ _ h (fun b' _ => ?_) q hq
        intro hm
        rw [player_update_type, hty] at hm
        simp at hm
    · next hty =>
      dsimp only
      intro q hq
      refine modifyEnt_all _ _ _ h (fun b' _ => ?_) q hq
      intro hm
      rw [show (Projectile.update dt b).1.type = b.type from rfl, hty] at hm
      simp at hm
    · next hty =>
      dsimp only
      intro q hq
      refine modifyEnt_all _ _ _ h (fun b' _ => ?_) q hq
      intro _
      obtain ⟨hv, hsp⟩ := hgood hty
      exact ⟨(mob_update_good dt b w.rand hsp hv).1, (mob_update_good dt b w.rand hsp hv).2.1⟩

theorem mobInv_foldl (dt : Q2) : ∀ (ids : List ℕ) (w : World), MobInv w →
    MobInv (ids.foldl (stepEntity dt) w) := by
  intro ids
  induction ids with
  | nil => exact fun _ h => h
  | cons i ids ih => exact fun w h => ih _ (mobInv_stepEntity dt w i h)

theorem mobInv_pairEffect (w : World) (ij : ℕ × ℕ) (h : MobInv w) :
    MobInv (pairEffect w ij) := by
  unfold pairEffect
  split
  · split
    · split
      · exact h
      · split
        · exact modifyEnt_all _ _ _ h (fun b' hb' hm => hb' hm)
        · split
          · exact modifyEnt_all _ _ _ h (fun b' hb' hm => hb' hm)
          · exact h
    · exact h
  · exact h

theorem mobInv_scan_foldl : ∀ (pairs : List (ℕ × ℕ)) (w : World), MobInv w →
    MobInv (pairs.foldl pairEffect w) := by
  intro pairs
  induction pairs with
  | nil => exact fun _ h => h
  | cons p ps ih => exact fun w h => ih _ (mobInv_pairEffect w p h)

theorem mobInv_update (ctrl : Controller) (dt : Q2) (w : World) (h : MobInv w) :
    MobInv (update ctrl dt w) := by
  unfold update
  dsimp only
  have h1 : MobInv (phasePoll ctrl w) :=
    modifyEnt_all _ _ _ h (fun b' hb' hm => hb' hm)
  have h2 : MobInv (phaseEntities dt (phasePoll ctrl w)) := mobInv_foldl dt _ _ h1
  have h3 : MobInv (CollissionChecker.update (phaseEntities dt (phasePoll ctrl w))) :=
    mobInv_scan_foldl _ _ h2
  have h4 : MobInv (phasePurge (CollissionChecker.update
      (phaseEntities dt (phasePoll ctrl w)))) :=
    fun p hp => h3 p (purge_entries_subset _ _ p hp)
  have h5 : MobInv (Enemy_Spawner.update dt (phasePurge (CollissionChecker.update
      (phaseEntities dt (phasePoll ctrl w))))) := by
    unfold Enemy_Spawner.update
    dsimp only
    split
    · refine modifyEnt_all _ _ _ ?_ (fun b' hb' hm => hb' hm)
      intro p hp
      rcases List.mem_append.mp hp with hp | hp
      · exact h4 p hp
      · simp at hp
        subst hp
        intro _
        exact ⟨(mob_init_vy _).1, (mob_init_vy _).2.2⟩
    · exact h4
  split
  · intro p hp
    simp [start] at hp
    subst hp
    intro hm
    simp [Player.init, Body.base] at hm
  · exact h5

/-- Lower bound on a mob's descent: with dt = 1/60 each update moves the mob
down by at least 50 * sqrt 2 / 60 units. -/
theorem mob_iter_y : ∀ (n : ℕ) (b : Body) (rand : List ℚ), b.speed = 100 →
    Q2.ble q50 b.velocity.y = true →
    b.position.y.toReal + n * (50 * Real.sqrt 2 / 60)
      ≤ ((Mob.iter (Q2.ofRat (1/60)) n (b, rand)).1.position.y).toReal := by
  intro n
  induction n with
  | zero =>
    intro b rand _ _
    simp [Mob.iter]
  | succ n ih =>
    intro b rand hsp hv
    have hgood := mob_update_good (Q2.ofRat (1/60)) b rand hsp hv
    have hstep := ih (Mob.update (Q2.ofRat (1/60)) b rand).1
      (Mob.update (Q2.ofRat (1/60)) b rand).2.2 hgood.2.1 hgood.1
    have hy : ((Mob.update (Q2.ofRat (1/60)) b rand).1.position.y).toReal
        = b.position.y.toReal + (1/60) * (b.velocity.y).toReal := by
      rw [mob_update_y, Q2.toReal_add, Q2.toReal_mul, Q2.toReal_ofRat]
      norm_num
    have hvy : 50 * Real.sqrt 2 ≤ (b.velocity.y).toReal := by
      have := (Q2.ble_iff q50 b.velocity.y).mp hv
      have hq : q50.toReal = 50 * Real.sqrt 2 := by simp [q50, Q2.toReal]
      linarith [hq ▸ this]
    have hmono : b.position.y.toReal + 50 * Real.sqrt 2 / 60
        ≤ ((Mob.update (Q2.ofRat (1/60)) b rand).1.position.y).toReal := by
      rw [hy]
      linarith
    show b.position.y.toReal + (n + 1 : ℕ) * (50 * Real.sqrt 2 / 60)
      ≤ ((Mob.iter (Q2.ofRat (1/60)) n
          ((Mob.update (Q2.ofRat (1/60)) b rand).1,
           (Mob.update (Q2.ofRat (1/60)) b rand).2.2)).1.position.y).toReal
    push_cast
    linarith

/-- Claim C10: every live Mob's y-velocity stays strictly positive
(downward).  In order: (1) at creation the y-velocity is 100 (and at least
50 * sqrt 2, with speed 100); (2) switch() always picks a heading whose
y-velocity is again at least 50 * sqrt 2 (all three headings move downward);
(3) a mob update keeps the y-velocity at least 50 * sqrt 2 and speed 100
(the left/right bounces overwrite only velocity.x), and with a positive time
step the mob's y position strictly increases, so a mob never moves upward;
(4) at least 50 * sqrt 2 means strictly positive; (5) the whole world tick
preserves the invariant for every live mob; (6) iterating the mob's updates
at the game's 1/60 s tick eventually carries it past the bottom boundary
y = height + 5 = 505. -/
theorem claim_C10 :
    (∀ r : ℚ, Q2.ble q50 (Mob.init r).velocity.y = true ∧
      ((Mob.init r).velocity.y).toReal = 100 ∧ (Mob.init r).speed = 100) ∧
    (∀ (b : Body) (rand : List ℚ), b.speed = 100 → Q2.ble q50 b.velocity.y = true →
      Q2.ble q50 ((Mob.switch b rand).1.velocity.y) = true ∧
      (Mob.switch b rand).1.speed = 100) ∧
    (∀ (dt : Q2) (b : Body) (rand : List ℚ), b.speed = 100 →
      Q2.ble q50 b.velocity.y = true →
      Q2.ble q50 ((Mob.update dt b rand).1.velocity.y) = true ∧
      (Mob.update dt b rand).1.speed = 100 ∧
      (0 < dt.toReal →
        (b.position.y).toReal < ((Mob.update dt b rand).1.position.y).toReal)) ∧
    (∀ v : Q2, Q2.ble q50 v = true → 0 < v.toReal) ∧
    (∀ (ctrl : Controller) (dt : Q2) (w : World), MobInv w → MobInv (update ctrl dt w)) ∧
    (∀ (b : Body) (rand : List ℚ), b.speed = 100 → Q2.ble q50 b.velocity.y = true →
      ∃ n : ℕ, (505:ℝ) ≤
        ((Mob.iter (Q2.ofRat (1/60)) n (b, rand)).1.position.y).toReal) := by
  refine ⟨mob_init_vy, ?_, ?_, ble_q50_pos, mobInv_update, ?_⟩
  · intro b rand hsp hv
    exact ⟨(mob_switch_good b rand hsp hv).1, (mob_switch_good b rand hsp hv).2.1⟩
  · intro dt b rand hsp hv
    refine ⟨(mob_update_good dt b rand hsp hv).1, (mob_update_good dt b rand hsp hv).2.1, ?_⟩
    intro hdt
    rw [mob_update_y, Q2.toReal_add, Q2.toReal_mul]
    have hvy : 50 * Real.sqrt 2 ≤ (b.velocity.y).toReal := by
      have h1 := (Q2.ble_iff q50 b.velocity.y).mp hv
      have hq : q50.toReal = 50 * Real.sqrt 2 := by simp [q50, Q2.toReal]
      linarith [hq ▸ h1]
    have hs := Q2.sqrt2_pos
    nlinarith
  · intro b rand hsp hv
    have hsqrt : (6:ℝ)/5 ≤ Real.sqrt 2 := by
      nlinarith [Q2.sqrt2_sq, Q2.sqrt2_pos, sq_nonneg (Real.sqrt 2 - 6/5)]
    have hc : (1:ℝ) ≤ 50 * Real.sqrt 2 / 60 := by
      rw [le_div_iff₀ (by norm_num : (0:ℝ) < 60)]
      linarith
    obtain ⟨n, hn⟩ := exists_nat_ge (505 - b.position.y.toReal)
    refine ⟨n, ?_⟩
    have hb := mob_iter_y n b rand hsp hv
    have h2 : (n:ℝ) * 1 ≤ (n:ℝ) * (50 * Real.sqrt 2 / 60) :=
      mul_le_mul_of_nonneg_left hc (Nat.cast_nonneg n)
    linarith

/-- Claim C10 witness: one update of a freshly constructed mob keeps its
y-velocity at least 50 * sqrt 2. -/
theorem claim_C10_witness :
    Q2.ble q50 ((Mob.update (Q2.ofRat (1/60)) (Mob.init (1/2)) []).1.velocity.y) = true :=
  ((claim_C10.2.2.1) (Q2.ofRat (1/60)) (Mob.init (1/2)) [] rfl
    (by norm_num [Q2.ble, Q2.pos, q50, Q2.ofRat, Mob.init, Body.base])).1
